import Mathlib

/-! # Host emulator for HTTP streams (`proxywasm/proxytest/http.go`)

A shallow embedding of the HTTP part of the proxy-wasm host emulator:
the per-stream record, the buffer calls, the header-map calls (on the values of
the maps, and on their slices and backing arrays), the map codec, the lifecycle
driver and the callout callback of the example filter
(`examples/dispatch_request_body/main.go`), and the properties they satisfy.

Conventions of the embedding:

* a Go `[]byte` and a Go `string` are both byte sequences, `List UInt8`;
* a Go `int` argument is an `Int`; the only arithmetic the code does on one
  (`len(buf) - start`) is reached with `0 <= start < len(buf)`, where it
  cannot overflow;
* a raw pointer/size pair coming from the guest (`bufferData, bufferSize`,
  `keyData, keySize`, ...) is the byte sequence that
  `internal.RawBytePtrToByteSlice` / `internal.RawBytePtrToString` build from it;
* `h.httpStreams` is a Go map from context id to a stream record: a lookup
  of an absent id gives the nil pointer (`none`);
* `internal.VMStateGetActiveContextID()` is the explicit argument `active`;
* a Go run-time panic is an `Except.error`.
-/

namespace ProxyTest

/-- Byte sequences: Go `[]byte`. -/
abbrev Bytes := List UInt8

/-- Go `string`: an immutable byte sequence. -/
abbrev GoString := List UInt8

/-- Header and trailer lists: Go `[][2]string` (`types.Headers`, `types.Trailers`). -/
abbrev Headers := List (GoString × GoString)

/-- The values of `types.Status` this file returns. -/
inductive Status where
  | OK
  | NotFound
  | BadArgument
  deriving DecidableEq, Repr

/-- Go `types.Action`. -/
inductive Action where
  | Continue
  | Pause
  deriving DecidableEq, Repr

/-- Go `types.BufferType`: the two body selectors the emulator handles, and
any other selector value (the `default` arm of the switches). -/
inductive BufferType where
  | HttpRequestBody
  | HttpResponseBody
  | other (code : Nat)
  deriving DecidableEq, Repr

/-- Go `types.MapType`: the four map selectors the emulator handles, and any
other selector value (the `default` arm of the switches). -/
inductive MapType where
  | HttpRequestHeaders
  | HttpResponseHeaders
  | HttpRequestTrailers
  | HttpResponseTrailers
  | other (code : Nat)
  deriving DecidableEq, Repr

/-- Run-time failures of the Go code. -/
inductive Fault where
  /-- a field of a nil `*httpStreamState` is read or addressed -/
  | nilDereference
  /-- `panic("unreachable: ...")` / `panic("unimplemented")` in a `default` arm -/
  | unreachable
  /-- an index expression outside the bounds of its slice -/
  | indexOutOfRange
  /-- `log.Fatalf("invalid context id: ...")` -/
  | invalidContextID
  /-- a serialized map that cannot be decoded -/
  | decodeFailure
  deriving DecidableEq, Repr

deriving instance DecidableEq for Except

/-- Go `LocalHttpResponse`. -/
structure LocalHttpResponse where
  StatusCode : Nat
  StatusCodeDetail : GoString
  Data : Bytes
  Headers : Headers
  GRPCStatus : Int
  deriving DecidableEq, Repr

/-- Go `httpStreamState`. -/
structure httpStreamState where
  requestHeaders : Headers
  responseHeaders : Headers
  requestTrailers : Headers
  responseTrailers : Headers
  requestBody : Bytes
  responseBody : Bytes
  action : Action
  sentLocalResponse : Option LocalHttpResponse
  deriving DecidableEq, Repr

/-- Go `httpHostEmulator`: `httpStreams map[uint32]*httpStreamState`. -/
structure httpHostEmulator where
  httpStreams : Nat → Option httpStreamState

/-- Writing through the pointer `h.httpStreams[id]`: the record of `id` becomes `s`. -/
def httpHostEmulator.store (h : httpHostEmulator) (id : Nat) (s : httpStreamState) :
    httpHostEmulator :=
  ⟨fun j => if j = id then some s else h.httpStreams j⟩

/-- Go `newHttpHostEmulator`. -/
def newHttpHostEmulator : httpHostEmulator := ⟨fun _ => none⟩

/-! ## Buffers -/

/-- What `httpHostEmulatorProxyGetBufferBytes` writes through its two out
parameters: `*returnBufferData = &buf[start]` (kept as the index into the
selected buffer) and `*returnBufferSize`. -/
structure BufferRange where
  start : Nat
  size : Int
  deriving DecidableEq, Repr

/-- Lines 65-78 of `httpHostEmulatorProxyGetBufferBytes`, on the selected `buf`. -/
def getBufferBytesFrom (buf : Bytes) (start maxSize : Int) :
    Except Fault (Status × Option BufferRange) :=
  if buf.length = 0 then
    .ok (.NotFound, none)
  else if start ≥ (buf.length : Int) then
    .ok (.BadArgument, none)
  else if start < 0 then
    -- `&buf[start]` with a negative index
    .error .indexOutOfRange
  else if maxSize > (buf.length : Int) - start then
    .ok (.OK, some ⟨start.toNat, (buf.length : Int) - start⟩)
  else
    .ok (.OK, some ⟨start.toNat, maxSize⟩)

/-- Go `httpHostEmulatorProxyGetBufferBytes`. Both body selectors read
`stream.requestBody`, as the source does. -/
def httpHostEmulatorProxyGetBufferBytes (h : httpHostEmulator) (active : Nat)
    (bt : BufferType) (start maxSize : Int) : Except Fault (Status × Option BufferRange) :=
  match bt with
  | .HttpRequestBody =>
    match h.httpStreams active with
    | none => .error .nilDereference
    | some stream => getBufferBytesFrom stream.requestBody start maxSize
  | .HttpResponseBody =>
    match h.httpStreams active with
    | none => .error .nilDereference
    | some stream => getBufferBytesFrom stream.requestBody start maxSize
  | .other _ => .error .unreachable

/-- The bytes a caller reads from a returned range of `buf`: `size` bytes from
index `start`. -/
def rangeBytes (buf : Bytes) (r : BufferRange) : Bytes :=
  (buf.drop r.start).take r.size.toNat

/-- Lines 96-114 of `httpHostEmulatorProxySetBufferBytes`, on the selected
buffer `*targetBuf`: the status and the new value of the buffer. -/
def setBufferBytesOn (targetBuf : Bytes) (start maxSize : Int) (body : Bytes) :
    Status × Bytes :=
  if start = 0 then
    if maxSize = 0 then
      (.OK, body ++ targetBuf)
    else if maxSize ≥ (targetBuf.length : Int) then
      (.OK, body)
    else
      (.BadArgument, targetBuf)
  else if start ≥ (targetBuf.length : Int) then
    (.OK, targetBuf ++ body)
  else
    (.BadArgument, targetBuf)

/-- Go `httpHostEmulatorProxySetBufferBytes`; `body` is
`internal.RawBytePtrToByteSlice(bufferData, bufferSize)`. -/
def httpHostEmulatorProxySetBufferBytes (h : httpHostEmulator) (active : Nat)
    (bt : BufferType) (start maxSize : Int) (body : Bytes) :
    Except Fault (Status × httpHostEmulator) :=
  match bt with
  | .HttpRequestBody =>
    match h.httpStreams active with
    | none => .error .nilDereference
    | some stream =>
      let r := setBufferBytesOn stream.requestBody start maxSize body
      .ok (r.1, h.store active { stream with requestBody := r.2 })
  | .HttpResponseBody =>
    match h.httpStreams active with
    | none => .error .nilDereference
    | some stream =>
      let r := setBufferBytesOn stream.responseBody start maxSize body
      .ok (r.1, h.store active { stream with responseBody := r.2 })
  | .other _ => .error .unreachable

/-! ## Header maps -/

/-- What `httpHostEmulatorProxyGetHeaderMapValue` writes through its two out
parameters: `*returnValueData = &value[0]` (kept as the slice `value` it points
into) and `*returnValueSize = len(value)`. -/
structure ReturnedValue where
  data : Bytes
  size : Int
  deriving DecidableEq, Repr

/-- Lines 138-147 of `httpHostEmulatorProxyGetHeaderMapValue`: the loop over
`headers`. `&value[0]` is an index expression, out of range on an empty `value`. -/
def getHeaderValueLoop (key : GoString) : Headers → Except Fault (Status × Option ReturnedValue)
  | [] => .ok (.NotFound, none)
  | h :: rest =>
    if h.1 = key then
      let value : Bytes := h.2
      if value.length = 0 then
        .error .indexOutOfRange
      else
        .ok (.OK, some ⟨value, (value.length : Int)⟩)
    else
      getHeaderValueLoop key rest

/-- Go `httpHostEmulatorProxyGetHeaderMapValue`; `key` is
`internal.RawBytePtrToString(keyData, keySize)`. -/
def httpHostEmulatorProxyGetHeaderMapValue (h : httpHostEmulator) (active : Nat)
    (mapType : MapType) (key : GoString) : Except Fault (Status × Option ReturnedValue) :=
  match mapType with
  | .HttpRequestHeaders =>
    match h.httpStreams active with
    | none => .error .nilDereference
    | some stream => getHeaderValueLoop key stream.requestHeaders
  | .HttpResponseHeaders =>
    match h.httpStreams active with
    | none => .error .nilDereference
    | some stream => getHeaderValueLoop key stream.responseHeaders
  | .HttpRequestTrailers =>
    match h.httpStreams active with
    | none => .error .nilDereference
    | some stream => getHeaderValueLoop key stream.requestTrailers
  | .HttpResponseTrailers =>
    match h.httpStreams active with
    | none => .error .nilDereference
    | some stream => getHeaderValueLoop key stream.responseTrailers
  | .other _ => .error .unreachable

/-- The loop of Go `addMapValue`, at index `i` with `rest` the pairs still to
visit: on a match `h[1] += value; base[i] = h; return base`, after the loop
`append(base, {key, value})`. -/
def addMapValueLoop (base : Headers) (key value : GoString) : Nat → Headers → Headers
  | _, [] => base ++ [(key, value)]
  | i, h :: rest =>
    if h.1 = key then
      base.set i (h.1, h.2 ++ value)
    else
      addMapValueLoop base key value (i + 1) rest

/-- Go `addMapValue`. -/
def addMapValue (base : Headers) (key value : GoString) : Headers :=
  addMapValueLoop base key value 0 base

/-- Go `ProxyAddHeaderMapValue`. -/
def ProxyAddHeaderMapValue (h : httpHostEmulator) (active : Nat) (mapType : MapType)
    (key value : GoString) : Except Fault (Status × httpHostEmulator) :=
  match mapType with
  | .HttpRequestHeaders =>
    match h.httpStreams active with
    | none => .error .nilDereference
    | some stream =>
      .ok (.OK, h.store active
        { stream with requestHeaders := addMapValue stream.requestHeaders key value })
  | .HttpResponseHeaders =>
    match h.httpStreams active with
    | none => .error .nilDereference
    | some stream =>
      .ok (.OK, h.store active
        { stream with responseHeaders := addMapValue stream.responseHeaders key value })
  | .HttpRequestTrailers =>
    match h.httpStreams active with
    | none => .error .nilDereference
    | some stream =>
      .ok (.OK, h.store active
        { stream with requestTrailers := addMapValue stream.requestTrailers key value })
  | .HttpResponseTrailers =>
    match h.httpStreams active with
    | none => .error .nilDereference
    | some stream =>
      .ok (.OK, h.store active
        { stream with responseTrailers := addMapValue stream.responseTrailers key value })
  | .other _ => .error .unreachable

/-- The loop of Go `replaceMapValue`, at index `i` with `rest` the pairs still
to visit: on a match `h[1] = value; base[i] = h; return base`, after the loop
`append(base, {key, value})`. -/
def replaceMapValueLoop (base : Headers) (key value : GoString) : Nat → Headers → Headers
  | _, [] => base ++ [(key, value)]
  | i, h :: rest =>
    if h.1 = key then
      base.set i (h.1, value)
    else
      replaceMapValueLoop base key value (i + 1) rest

/-- Go `replaceMapValue`. -/
def replaceMapValue (base : Headers) (key value : GoString) : Headers :=
  replaceMapValueLoop base key value 0 base

/-- Go `ProxyReplaceHeaderMapValue`. -/
def ProxyReplaceHeaderMapValue (h : httpHostEmulator) (active : Nat) (mapType : MapType)
    (key value : GoString) : Except Fault (Status × httpHostEmulator) :=
  match mapType with
  | .HttpRequestHeaders =>
    match h.httpStreams active with
    | none => .error .nilDereference
    | some stream =>
      .ok (.OK, h.store active
        { stream with requestHeaders := replaceMapValue stream.requestHeaders key value })
  | .HttpResponseHeaders =>
    match h.httpStreams active with
    | none => .error .nilDereference
    | some stream =>
      .ok (.OK, h.store active
        { stream with responseHeaders := replaceMapValue stream.responseHeaders key value })
  | .HttpRequestTrailers =>
    match h.httpStreams active with
    | none => .error .nilDereference
    | some stream =>
      .ok (.OK, h.store active
        { stream with requestTrailers := replaceMapValue stream.requestTrailers key value })
  | .HttpResponseTrailers =>
    match h.httpStreams active with
    | none => .error .nilDereference
    | some stream =>
      .ok (.OK, h.store active
        { stream with responseTrailers := replaceMapValue stream.responseTrailers key value })
  | .other _ => .error .unreachable

/-- The loop of Go `removeHeaderMapValue`, at index `i` with `rest` the pairs
still to visit: on a match `base[:i]` when `i` is the last index, else
`append(base[:i], base[i+1:]...)`; after the loop `base`. -/
def removeHeaderMapValueLoop (base : Headers) (key : GoString) : Nat → Headers → Headers
  | _, [] => base
  | i, h :: rest =>
    if h.1 = key then
      if (base.length : Int) - 1 = (i : Int) then
        base.take i
      else
        base.take i ++ base.drop (i + 1)
    else
      removeHeaderMapValueLoop base key (i + 1) rest

/-- Go `removeHeaderMapValue`. -/
def removeHeaderMapValue (base : Headers) (key : GoString) : Headers :=
  removeHeaderMapValueLoop base key 0 base

/-- Go `ProxyRemoveHeaderMapValue`. -/
def ProxyRemoveHeaderMapValue (h : httpHostEmulator) (active : Nat) (mapType : MapType)
    (key : GoString) : Except Fault (Status × httpHostEmulator) :=
  match mapType with
  | .HttpRequestHeaders =>
    match h.httpStreams active with
    | none => .error .nilDereference
    | some stream =>
      .ok (.OK, h.store active
        { stream with requestHeaders := removeHeaderMapValue stream.requestHeaders key })
  | .HttpResponseHeaders =>
    match h.httpStreams active with
    | none => .error .nilDereference
    | some stream =>
      .ok (.OK, h.store active
        { stream with responseHeaders := removeHeaderMapValue stream.responseHeaders key })
  | .HttpRequestTrailers =>
    match h.httpStreams active with
    | none => .error .nilDereference
    | some stream =>
      .ok (.OK, h.store active
        { stream with requestTrailers := removeHeaderMapValue stream.requestTrailers key })
  | .HttpResponseTrailers =>
    match h.httpStreams active with
    | none => .error .nilDereference
    | some stream =>
      .ok (.OK, h.store active
        { stream with responseTrailers := removeHeaderMapValue stream.responseTrailers key })
  | .other _ => .error .unreachable

/-! ## Map codec

`internal.SerializeMap` and `internal.DeserializeMap` belong to package
`internal`, outside these sources. The spec gives the layout ("count, per-pair
key/value length table, then concatenated key bytes then value bytes") and the
round trip for any pair sequence, and no width for the count and length
fields: the way one field is written is a parameter, any way that can be read
back. -/

/-- Modelled from the spec: how one count or length field of the serialized map
is written and read (`internal.SerializeMap` / `internal.DeserializeMap`, not in
these sources). `get` reads one field off the front of a buffer and gives the
rest; whatever `put` writes, `get` reads back. -/
structure LengthField where
  put : Nat → Bytes
  get : Bytes → Option (Nat × Bytes)
  get_put : ∀ (n : Nat) (rest : Bytes), get (put n ++ rest) = some (n, rest)

/-- Modelled from the spec: the "per-pair key/value length table" of
`internal.SerializeMap` (not in these sources). -/
def lengthTable (F : LengthField) : Headers → Bytes
  | [] => []
  | kv :: rest => F.put kv.1.length ++ F.put kv.2.length ++ lengthTable F rest

/-- Modelled from the spec: the "concatenated key bytes then value bytes" of
`internal.SerializeMap` (not in these sources). -/
def pairBytes : Headers → Bytes
  | [] => []
  | kv :: rest => kv.1 ++ kv.2 ++ pairBytes rest

/-- Modelled from the spec: `internal.SerializeMap` (not in these sources) over
a field encoding: "count, per-pair key/value length table, then concatenated
key bytes then value bytes". -/
def serializeWith (F : LengthField) (ms : Headers) : Bytes :=
  F.put ms.length ++ lengthTable F ms ++ pairBytes ms

/-- Modelled from the spec: reading the length table of `n` pairs off the front
of a buffer (`internal.DeserializeMap`, not in these sources); a table that
cannot be read is a decoding failure. -/
def readTable (F : LengthField) : Nat → Bytes → Except Fault (List (Nat × Nat) × Bytes)
  | 0, bs => .ok ([], bs)
  | n + 1, bs =>
    match F.get bs with
    | none => .error .decodeFailure
    | some k =>
      match F.get k.2 with
      | none => .error .decodeFailure
      | some v =>
        match readTable F n v.2 with
        | .error e => .error e
        | .ok r => .ok ((k.1, v.1) :: r.1, r.2)

/-- Modelled from the spec: cutting the key and value bytes of each pair out of
`data` by the lengths of the table (`internal.DeserializeMap`, not in these
sources); data that is too short, or has bytes left over, is rejected "with a
decoding failure rather than reading out of bounds". -/
def readPairs : List (Nat × Nat) → Bytes → Except Fault Headers
  | [], data => if data.length = 0 then .ok [] else .error .decodeFailure
  | size :: sizes, data =>
    if data.length < size.1 + size.2 then
      .error .decodeFailure
    else
      match readPairs sizes (data.drop (size.1 + size.2)) with
      | .error e => .error e
      | .ok rest => .ok ((data.take size.1, (data.drop size.1).take size.2) :: rest)

/-- Modelled from the spec: `internal.DeserializeMap` (not in these sources)
over a field encoding, the inverse of `serializeWith`; it has a single result,
so its decoding failure is a fault of the call. -/
def deserializeWith (F : LengthField) (bs : Bytes) : Except Fault Headers :=
  match F.get bs with
  | none => .error .decodeFailure
  | some count =>
    match readTable F count.1 count.2 with
    | .error e => .error e
    | .ok r => readPairs r.1 r.2

/-- Reading a field written as `n` bytes 1 closed by a byte 0. -/
def getUnary : Bytes → Option (Nat × Bytes)
  | [] => none
  | b :: rest =>
    if b = 0 then
      some (0, rest)
    else
      match getUnary rest with
      | none => none
      | some r => some (r.1 + 1, r.2)

/-- Modelled from the spec: a field encoding without a width, used where a
serialized map is needed in bytes: the number `n` is `n` bytes 1 closed by a
byte 0. -/
def unaryField : LengthField where
  put := fun n => List.replicate n 1 ++ [0]
  get := getUnary
  get_put := by
    intro n rest
    induction n with
    | zero => simp [getUnary]
    | succ n ih =>
      have h10 : ((1 : UInt8) = 0) = False := by decide
      simp only [List.append_assoc, List.singleton_append] at ih
      simp [List.replicate_succ, getUnary, ih, h10]

/-- Modelled from the spec: `internal.SerializeMap` (not in these sources). -/
def SerializeMap (ms : Headers) : Bytes :=
  serializeWith unaryField ms

/-- Modelled from the spec: `internal.DeserializeMap` (not in these sources). -/
def DeserializeMap (bs : Bytes) : Except Fault Headers :=
  deserializeWith unaryField bs

/-- Lines 275-277 of `httpHostEmulatorProxyGetHeaderMapPairs`:
`*returnValueData = &m[0]`, `*returnValueSize = len(m)`. -/
def returnSerialized (m : Bytes) : Except Fault (Status × Option ReturnedValue) :=
  if m.length = 0 then
    .error .indexOutOfRange
  else
    .ok (.OK, some ⟨m, (m.length : Int)⟩)

/-- Go `httpHostEmulatorProxyGetHeaderMapPairs`. -/
def httpHostEmulatorProxyGetHeaderMapPairs (h : httpHostEmulator) (active : Nat)
    (mapType : MapType) : Except Fault (Status × Option ReturnedValue) :=
  match mapType with
  | .HttpRequestHeaders =>
    match h.httpStreams active with
    | none => .error .nilDereference
    | some stream => returnSerialized (SerializeMap stream.requestHeaders)
  | .HttpResponseHeaders =>
    match h.httpStreams active with
    | none => .error .nilDereference
    | some stream => returnSerialized (SerializeMap stream.responseHeaders)
  | .HttpRequestTrailers =>
    match h.httpStreams active with
    | none => .error .nilDereference
    | some stream => returnSerialized (SerializeMap stream.requestTrailers)
  | .HttpResponseTrailers =>
    match h.httpStreams active with
    | none => .error .nilDereference
    | some stream => returnSerialized (SerializeMap stream.responseTrailers)
  | .other _ => .error .unreachable

/-- Go `ProxySetHeaderMapPairs`; `mapData` is
`internal.RawBytePtrToByteSlice(mapData, mapSize)`. -/
def ProxySetHeaderMapPairs (h : httpHostEmulator) (active : Nat) (mapType : MapType)
    (mapData : Bytes) : Except Fault (Status × httpHostEmulator) :=
  match DeserializeMap mapData with
  | .error e => .error e
  | .ok m =>
    match mapType with
    | .HttpRequestHeaders =>
      match h.httpStreams active with
      | none => .error .nilDereference
      | some stream => .ok (.OK, h.store active { stream with requestHeaders := m })
    | .HttpResponseHeaders =>
      match h.httpStreams active with
      | none => .error .nilDereference
      | some stream => .ok (.OK, h.store active { stream with responseHeaders := m })
    | .HttpRequestTrailers =>
      match h.httpStreams active with
      | none => .error .nilDereference
      | some stream => .ok (.OK, h.store active { stream with requestTrailers := m })
    | .HttpResponseTrailers =>
      match h.httpStreams active with
      | none => .error .nilDereference
      | some stream => .ok (.OK, h.store active { stream with responseTrailers := m })
    | .other _ => .error .unreachable

/-! ## Flow control and local responses -/

/-- Go `ProxySendLocalResponse`; `statusCodeDetail`, `body` and `headers` are
what `internal.RawBytePtrToString` / `internal.RawBytePtrToByteSlice` build from
the pointer/size pairs. The assignment to `stream.sentLocalResponse` has no
condition. -/
def ProxySendLocalResponse (h : httpHostEmulator) (active : Nat) (statusCode : Nat)
    (statusCodeDetail : GoString) (body : Bytes) (headers : Bytes) (grpcStatus : Int) :
    Except Fault (Status × httpHostEmulator) :=
  match DeserializeMap headers with
  | .error e => .error e
  | .ok hs =>
    match h.httpStreams active with
    | none => .error .nilDereference
    | some stream =>
      .ok (.OK, h.store active
        { stream with
          sentLocalResponse := some
            { StatusCode := statusCode, StatusCodeDetail := statusCodeDetail, Data := body,
              Headers := hs, GRPCStatus := grpcStatus } })

/-- Go `ProxyContinueStream`: the action of the active stream becomes Continue. -/
def ProxyContinueStream (h : httpHostEmulator) (active : Nat) :
    Except Fault (Status × httpHostEmulator) :=
  match h.httpStreams active with
  | none => .error .nilDereference
  | some stream => .ok (.OK, h.store active { stream with action := .Continue })

/-- Go `GetCurrentHttpStreamAction`. -/
def GetCurrentHttpStreamAction (h : httpHostEmulator) (contextID : Nat) : Except Fault Action :=
  match h.httpStreams contextID with
  | none => .error .invalidContextID
  | some stream => .ok stream.action

/-- Go `GetSentLocalResponse`. -/
def GetSentLocalResponse (h : httpHostEmulator) (contextID : Nat) :
    Except Fault (Option LocalHttpResponse) :=
  match h.httpStreams contextID with
  | none => .error .nilDereference
  | some stream => .ok stream.sentLocalResponse

/-! ## Lifecycle driver

The driver reaches the extension through `internal.ProxyOnRequestHeaders`,
`internal.ProxyOnLog`, ... (package `internal`, outside these sources), so the
extension is a parameter: one state transformer per callback, over the
extension's own state `σ` and the emulator. A callback acts on the emulator
through the host calls above, which update the record of the active stream in
place and neither add nor remove a record. -/

/-- The callbacks of the extension under test, named after the `internal`
functions the driver calls. Each takes the context id and the arguments the
driver passes. -/
structure Extension (σ : Type) where
  ProxyOnRequestHeaders : Nat → Int → Bool → σ × httpHostEmulator →
    Except Fault (Action × (σ × httpHostEmulator))
  ProxyOnResponseHeaders : Nat → Int → Bool → σ × httpHostEmulator →
    Except Fault (Action × (σ × httpHostEmulator))
  ProxyOnRequestTrailers : Nat → Int → σ × httpHostEmulator →
    Except Fault (Action × (σ × httpHostEmulator))
  ProxyOnResponseTrailers : Nat → Int → σ × httpHostEmulator →
    Except Fault (Action × (σ × httpHostEmulator))
  ProxyOnRequestBody : Nat → Int → Bool → σ × httpHostEmulator →
    Except Fault (Action × (σ × httpHostEmulator))
  ProxyOnResponseBody : Nat → Int → Bool → σ × httpHostEmulator →
    Except Fault (Action × (σ × httpHostEmulator))
  ProxyOnLog : Nat → σ × httpHostEmulator → Except Fault (σ × httpHostEmulator)
  ProxyOnDone : Nat → σ × httpHostEmulator → Except Fault (σ × httpHostEmulator)
  ProxyOnDelete : Nat → σ × httpHostEmulator → Except Fault (σ × httpHostEmulator)

/-- The assignment `cs.action = a` made after a callback returned, `cs` being
the pointer to the record of `id` taken before the callback. -/
def httpHostEmulator.setAction (h : httpHostEmulator) (id : Nat) (a : Action) :
    httpHostEmulator :=
  match h.httpStreams id with
  | none => h
  | some cs => h.store id { cs with action := a }

/-- Go `CallOnRequestHeaders`. -/
def CallOnRequestHeaders {σ : Type} (ext : Extension σ) (w : σ × httpHostEmulator)
    (contextID : Nat) (headers : Headers) (endOfStream : Bool) :
    Except Fault (Action × (σ × httpHostEmulator)) :=
  match w.2.httpStreams contextID with
  | none => .error .invalidContextID
  | some cs =>
    match ext.ProxyOnRequestHeaders contextID (headers.length : Int) endOfStream
        (w.1, w.2.store contextID { cs with requestHeaders := headers }) with
    | .error e => .error e
    | .ok r => .ok (r.1, (r.2.1, r.2.2.setAction contextID r.1))

/-- Go `CallOnResponseHeaders`. -/
def CallOnResponseHeaders {σ : Type} (ext : Extension σ) (w : σ × httpHostEmulator)
    (contextID : Nat) (headers : Headers) (endOfStream : Bool) :
    Except Fault (Action × (σ × httpHostEmulator)) :=
  match w.2.httpStreams contextID with
  | none => .error .invalidContextID
  | some cs =>
    match ext.ProxyOnResponseHeaders contextID (headers.length : Int) endOfStream
        (w.1, w.2.store contextID { cs with responseHeaders := headers }) with
    | .error e => .error e
    | .ok r => .ok (r.1, (r.2.1, r.2.2.setAction contextID r.1))

/-- Go `CallOnRequestTrailers`. -/
def CallOnRequestTrailers {σ : Type} (ext : Extension σ) (w : σ × httpHostEmulator)
    (contextID : Nat) (trailers : Headers) : Except Fault (Action × (σ × httpHostEmulator)) :=
  match w.2.httpStreams contextID with
  | none => .error .invalidContextID
  | some cs =>
    match ext.ProxyOnRequestTrailers contextID (trailers.length : Int)
        (w.1, w.2.store contextID { cs with requestTrailers := trailers }) with
    | .error e => .error e
    | .ok r => .ok (r.1, (r.2.1, r.2.2.setAction contextID r.1))

/-- Go `CallOnResponseTrailers`. -/
def CallOnResponseTrailers {σ : Type} (ext : Extension σ) (w : σ × httpHostEmulator)
    (contextID : Nat) (trailers : Headers) : Except Fault (Action × (σ × httpHostEmulator)) :=
  match w.2.httpStreams contextID with
  | none => .error .invalidContextID
  | some cs =>
    match ext.ProxyOnResponseTrailers contextID (trailers.length : Int)
        (w.1, w.2.store contextID { cs with responseTrailers := trailers }) with
    | .error e => .error e
    | .ok r => .ok (r.1, (r.2.1, r.2.2.setAction contextID r.1))

/-- Go `CallOnRequestBody`: `cs.requestBody = append(cs.requestBody, body...)`,
then the callback with `len(body)`. -/
def CallOnRequestBody {σ : Type} (ext : Extension σ) (w : σ × httpHostEmulator)
    (contextID : Nat) (body : Bytes) (endOfStream : Bool) :
    Except Fault (Action × (σ × httpHostEmulator)) :=
  match w.2.httpStreams contextID with
  | none => .error .invalidContextID
  | some cs =>
    match ext.ProxyOnRequestBody contextID (body.length : Int) endOfStream
        (w.1, w.2.store contextID { cs with requestBody := cs.requestBody ++ body }) with
    | .error e => .error e
    | .ok r => .ok (r.1, (r.2.1, r.2.2.setAction contextID r.1))

/-- Go `CallOnResponseBody`: `cs.responseBody = body`, then the callback with
`len(body)`. -/
def CallOnResponseBody {σ : Type} (ext : Extension σ) (w : σ × httpHostEmulator)
    (contextID : Nat) (body : Bytes) (endOfStream : Bool) :
    Except Fault (Action × (σ × httpHostEmulator)) :=
  match w.2.httpStreams contextID with
  | none => .error .invalidContextID
  | some cs =>
    match ext.ProxyOnResponseBody contextID (body.length : Int) endOfStream
        (w.1, w.2.store contextID { cs with responseBody := body }) with
    | .error e => .error e
    | .ok r => .ok (r.1, (r.2.1, r.2.2.setAction contextID r.1))

/-- Go `CompleteHttpContext`: `ProxyOnLog`, `ProxyOnDone`, `ProxyOnDelete`, and
nothing else. -/
def CompleteHttpContext {σ : Type} (ext : Extension σ) (w : σ × httpHostEmulator)
    (contextID : Nat) : Except Fault (σ × httpHostEmulator) :=
  match ext.ProxyOnLog contextID w with
  | .error e => .error e
  | .ok w1 =>
    match ext.ProxyOnDone contextID w1 with
    | .error e => .error e
    | .ok w2 => ext.ProxyOnDelete contextID w2

/-- A callback invocation: which callback, and the arguments it received. -/
inductive CallbackEvent where
  | requestHeaders (contextID : Nat) (numHeaders : Int) (endOfStream : Bool)
  | responseHeaders (contextID : Nat) (numHeaders : Int) (endOfStream : Bool)
  | requestTrailers (contextID : Nat) (numTrailers : Int)
  | responseTrailers (contextID : Nat) (numTrailers : Int)
  | requestBody (contextID : Nat) (bodySize : Int) (endOfStream : Bool)
  | responseBody (contextID : Nat) (bodySize : Int) (endOfStream : Bool)
  | log (contextID : Nat)
  | done (contextID : Nat)
  | delete (contextID : Nat)
  deriving DecidableEq, Repr

/-- Running `f` on the extension state and the emulator, beside a list of
events that gains `ev` first. -/
def recordThen {σ α : Type} (ev : CallbackEvent)
    (f : σ × httpHostEmulator → Except Fault (α × (σ × httpHostEmulator)))
    (w : (List CallbackEvent × σ) × httpHostEmulator) :
    Except Fault (α × ((List CallbackEvent × σ) × httpHostEmulator)) :=
  match f (w.1.2, w.2) with
  | .error e => .error e
  | .ok r => .ok (r.1, ((w.1.1 ++ [ev], r.2.1), r.2.2))

/-- As `recordThen`, for a callback without a result. -/
def recordThenUnit {σ : Type} (ev : CallbackEvent)
    (f : σ × httpHostEmulator → Except Fault (σ × httpHostEmulator))
    (w : (List CallbackEvent × σ) × httpHostEmulator) :
    Except Fault ((List CallbackEvent × σ) × httpHostEmulator) :=
  match f (w.1.2, w.2) with
  | .error e => .error e
  | .ok r => .ok ((w.1.1 ++ [ev], r.1), r.2)

/-- The extension `ext` with every callback also appending its invocation, with
the arguments received, to a list kept in the extension state. -/
def traced {σ : Type} (ext : Extension σ) : Extension (List CallbackEvent × σ) where
  ProxyOnRequestHeaders := fun id n eos =>
    recordThen (.requestHeaders id n eos) (ext.ProxyOnRequestHeaders id n eos)
  ProxyOnResponseHeaders := fun id n eos =>
    recordThen (.responseHeaders id n eos) (ext.ProxyOnResponseHeaders id n eos)
  ProxyOnRequestTrailers := fun id n =>
    recordThen (.requestTrailers id n) (ext.ProxyOnRequestTrailers id n)
  ProxyOnResponseTrailers := fun id n =>
    recordThen (.responseTrailers id n) (ext.ProxyOnResponseTrailers id n)
  ProxyOnRequestBody := fun id n eos =>
    recordThen (.requestBody id n eos) (ext.ProxyOnRequestBody id n eos)
  ProxyOnResponseBody := fun id n eos =>
    recordThen (.responseBody id n eos) (ext.ProxyOnResponseBody id n eos)
  ProxyOnLog := fun id => recordThenUnit (.log id) (ext.ProxyOnLog id)
  ProxyOnDone := fun id => recordThenUnit (.done id) (ext.ProxyOnDone id)
  ProxyOnDelete := fun id => recordThenUnit (.delete id) (ext.ProxyOnDelete id)

/-- The extension whose callbacks make no host call and return `a`. -/
def idleExtension (a : Action) : Extension Unit where
  ProxyOnRequestHeaders := fun _ _ _ w => .ok (a, w)
  ProxyOnResponseHeaders := fun _ _ _ w => .ok (a, w)
  ProxyOnRequestTrailers := fun _ _ w => .ok (a, w)
  ProxyOnResponseTrailers := fun _ _ w => .ok (a, w)
  ProxyOnRequestBody := fun _ _ _ w => .ok (a, w)
  ProxyOnResponseBody := fun _ _ _ w => .ok (a, w)
  ProxyOnLog := fun _ w => .ok w
  ProxyOnDone := fun _ w => .ok w
  ProxyOnDelete := fun _ w => .ok w

/-- An extension whose logging callback removes the header `"a"` from the
request headers of its context, whose stream-done callback calls
`ProxyContinueStream`, and whose other callbacks are idle. -/
def busyOnCompletion : Extension Unit where
  ProxyOnRequestHeaders := fun _ _ _ w => .ok (.Continue, w)
  ProxyOnResponseHeaders := fun _ _ _ w => .ok (.Continue, w)
  ProxyOnRequestTrailers := fun _ _ w => .ok (.Continue, w)
  ProxyOnResponseTrailers := fun _ _ w => .ok (.Continue, w)
  ProxyOnRequestBody := fun _ _ _ w => .ok (.Continue, w)
  ProxyOnResponseBody := fun _ _ _ w => .ok (.Continue, w)
  ProxyOnLog := fun id w =>
    match ProxyRemoveHeaderMapValue w.2 id .HttpRequestHeaders [97] with
    | .error e => .error e
    | .ok r => .ok (w.1, r.2)
  ProxyOnDone := fun id w =>
    match ProxyContinueStream w.2 id with
    | .error e => .error e
    | .ok r => .ok (w.1, r.2)
  ProxyOnDelete := fun _ w => .ok w

/-- An extension whose request-header callback calls `ProxyContinueStream` on
its context and then returns Pause; the other callbacks are idle. -/
def continueThenPause : Extension Unit where
  ProxyOnRequestHeaders := fun id _ _ w =>
    match ProxyContinueStream w.2 id with
    | .error e => .error e
    | .ok r => .ok (.Pause, (w.1, r.2))
  ProxyOnResponseHeaders := fun _ _ _ w => .ok (.Continue, w)
  ProxyOnRequestTrailers := fun _ _ w => .ok (.Continue, w)
  ProxyOnResponseTrailers := fun _ _ w => .ok (.Continue, w)
  ProxyOnRequestBody := fun _ _ _ w => .ok (.Continue, w)
  ProxyOnResponseBody := fun _ _ _ w => .ok (.Continue, w)
  ProxyOnLog := fun _ w => .ok w
  ProxyOnDone := fun _ w => .ok w
  ProxyOnDelete := fun _ w => .ok w

/-! ## The example filter (`examples/dispatch_request_body/main.go`) -/

/-- The bytes of a Go string literal written in ASCII. -/
def asciiBytes (s : String) : GoString :=
  s.toList.map (fun c => UInt8.ofNat c.toNat)

/-- Modelled from the spec: `proxywasm.ResumeHttpRequest` (package `proxywasm`,
not in these sources): the host call by which the extension resumes the
request, `ProxyContinueStream` on the active stream. -/
def ResumeHttpRequest (h : httpHostEmulator) (active : Nat) :
    Except Fault (Status × httpHostEmulator) :=
  ProxyContinueStream h active

/-- Modelled from the spec: `proxywasm.SendHttpResponse` (package `proxywasm`,
not in these sources): the local-response call, `ProxySendLocalResponse` with
an empty status detail and the headers in serialized form. -/
def SendHttpResponse (h : httpHostEmulator) (active : Nat) (statusCode : Nat)
    (headers : Headers) (body : Bytes) (grpcStatus : Int) :
    Except Fault (Status × httpHostEmulator) :=
  ProxySendLocalResponse h active statusCode [] body (SerializeMap headers) grpcStatus

/-- The Go map assignment `resMap[v[0]] = v[1]`. -/
def resMapInsert (m : GoString → Option GoString) (v : GoString × GoString) :
    GoString → Option GoString :=
  fun k => if k = v.1 then some v.2 else m k

/-- The loop `for _, v := range resHeaders { resMap[v[0]] = v[1] }` on an empty map. -/
def resMapOf (resHeaders : Headers) : GoString → Option GoString :=
  resHeaders.foldl resMapInsert (fun _ => none)

/-- The statement `_ = proxywasm.ResumeHttpRequest(); return` of the callback. -/
def resumeAndReturn (h : httpHostEmulator) (active : Nat) : Except Fault httpHostEmulator :=
  match ResumeHttpRequest h active with
  | .error e => .error e
  | .ok r => .ok r.2

/-- Go `httpContext.httpCallResponseCallback`, run with `active` as the active
context. `resHeaders` is the result of `proxywasm.GetHttpCallResponseHeaders()`
(`none` for an error); the arguments `numHeaders`, `bodySize`, `numTrailers` are
not used by the body and the logging calls have no effect on the emulator. -/
def httpCallResponseCallback (h : httpHostEmulator) (active : Nat)
    (resHeaders : Option Headers) : Except Fault httpHostEmulator :=
  match resHeaders with
  | none => resumeAndReturn h active
  | some resHeaders =>
    match resMapOf resHeaders (asciiBytes "x-filter-result") with
    | none => resumeAndReturn h active
    | some result =>
      if result ≠ asciiBytes "?" then
        resumeAndReturn h active
      else
        match SendHttpResponse h active 403
            [(asciiBytes "powered-by", asciiBytes "proxy-wasm-go-sdk!!")]
            (asciiBytes "access forbidden") (-1) with
        | .error e => .error e
        | .ok r => if r.1 ≠ .OK then resumeAndReturn r.2 active else .ok r.2

/-- The local response the example filter sends. -/
def accessForbidden : LocalHttpResponse :=
  { StatusCode := 403, StatusCodeDetail := [], Data := asciiBytes "access forbidden",
    Headers := [(asciiBytes "powered-by", asciiBytes "proxy-wasm-go-sdk!!")],
    GRPCStatus := -1 }

/-- The record of stream `id` after the callout callback, when it returned. -/
def callbackRecord (r : Except Fault httpHostEmulator) (id : Nat) : Option httpStreamState :=
  match r with
  | .ok h => h.httpStreams id
  | .error _ => none

/-! ## Header maps as slices

A header map is a Go slice (`[][2]string`): a window on a backing array. The
driver stores the slice it is handed without copying it (`cs.requestHeaders =
headers`), and add, replace and remove write into the backing array
(`base[i] = h`, `append(base[:i], base[i+1:]...)`), so two maps that hold
slices of one array see each other's writes. The definitions above give each
map the value of its slice; the ones below keep the slices and the arrays, to
say what a header-map call does to the other maps. The body buffers are byte
slices, which no header-map call writes, and are kept as values. -/

/-- A Go slice of header pairs: the id of its backing array, the index of its
first element in that array, its length and its capacity. A nil slice has
length and capacity 0. -/
structure PairSlice where
  arr : Nat
  off : Nat
  len : Nat
  cap : Nat
  deriving DecidableEq, Repr

/-- The backing arrays of the header slices, by array id; the ids below `next`
are the allocated ones. -/
structure PairHeap where
  arrays : Nat → Headers
  next : Nat

/-- The elements of a slice. -/
def PairHeap.read (H : PairHeap) (s : PairSlice) : Headers :=
  ((H.arrays s.arr).drop s.off).take s.len

/-- Array `a` with the elements from index `pos` on overwritten by `vals`. -/
def PairHeap.writeAt (H : PairHeap) (a pos : Nat) (vals : Headers) : PairHeap :=
  { arrays := fun j =>
      if j = a then
        (H.arrays a).take pos ++ vals ++ (H.arrays a).drop (pos + vals.length)
      else H.arrays j
    next := H.next }

/-- Go `append(s, vals...)`: within the capacity of `s` the elements are
written after its last one in its backing array; beyond it a new array is
allocated, with the elements of `s`, then `vals`, then `growth n` spare
elements, `n` being the new length (how much Go over-allocates is left open). -/
def PairHeap.appendValues (growth : Nat → Nat) (H : PairHeap) (s : PairSlice)
    (vals : Headers) : PairHeap × PairSlice :=
  if s.len + vals.length ≤ s.cap then
    (H.writeAt s.arr (s.off + s.len) vals, { s with len := s.len + vals.length })
  else
    ({ arrays := fun j =>
         if j = H.next then
           H.read s ++ vals ++ List.replicate (growth (s.len + vals.length)) ([], [])
         else H.arrays j
       next := H.next + 1 },
     { arr := H.next, off := 0, len := s.len + vals.length,
       cap := s.len + vals.length + growth (s.len + vals.length) })

/-- Go `s[:i]`. -/
def PairSlice.upTo (s : PairSlice) (i : Nat) : PairSlice :=
  { s with len := i }

/-- Go `s[i:]`. -/
def PairSlice.startingAt (s : PairSlice) (i : Nat) : PairSlice :=
  { arr := s.arr, off := s.off + i, len := s.len - i, cap := s.cap - i }

namespace Slices

/-- The loop of Go `addMapValue` on a slice, at index `i` with `rest` the
elements still to visit: on a match `h[1] += value; base[i] = h; return base`,
after the loop `append(base, {key, value})`. -/
def addMapValueLoop (growth : Nat → Nat) (H : PairHeap) (base : PairSlice)
    (key value : GoString) : Nat → Headers → PairHeap × PairSlice
  | _, [] => H.appendValues growth base [(key, value)]
  | i, h :: rest =>
    if h.1 = key then
      (H.writeAt base.arr (base.off + i) [(h.1, h.2 ++ value)], base)
    else
      addMapValueLoop growth H base key value (i + 1) rest

/-- Go `addMapValue` on a slice: the new arrays and the slice returned. -/
def addMapValue (growth : Nat → Nat) (H : PairHeap) (base : PairSlice)
    (key value : GoString) : PairHeap × PairSlice :=
  addMapValueLoop growth H base key value 0 (H.read base)

/-- The loop of Go `replaceMapValue` on a slice: on a match `h[1] = value;
base[i] = h; return base`, after the loop `append(base, {key, value})`. -/
def replaceMapValueLoop (growth : Nat → Nat) (H : PairHeap) (base : PairSlice)
    (key value : GoString) : Nat → Headers → PairHeap × PairSlice
  | _, [] => H.appendValues growth base [(key, value)]
  | i, h :: rest =>
    if h.1 = key then
      (H.writeAt base.arr (base.off + i) [(h.1, value)], base)
    else
      replaceMapValueLoop growth H base key value (i + 1) rest

/-- Go `replaceMapValue` on a slice. -/
def replaceMapValue (growth : Nat → Nat) (H : PairHeap) (base : PairSlice)
    (key value : GoString) : PairHeap × PairSlice :=
  replaceMapValueLoop growth H base key value 0 (H.read base)

/-- The loop of Go `removeHeaderMapValue` on a slice: on a match `base[:i]`
when `i` is the last index, else `append(base[:i], base[i+1:]...)`; after the
loop `base`. -/
def removeHeaderMapValueLoop (growth : Nat → Nat) (H : PairHeap) (base : PairSlice)
    (key : GoString) : Nat → Headers → PairHeap × PairSlice
  | _, [] => (H, base)
  | i, h :: rest =>
    if h.1 = key then
      if (base.len : Int) - 1 = (i : Int) then
        (H, base.upTo i)
      else
        H.appendValues growth (base.upTo i) (H.read (base.startingAt (i + 1)))
    else
      removeHeaderMapValueLoop growth H base key (i + 1) rest

/-- Go `removeHeaderMapValue` on a slice. -/
def removeHeaderMapValue (growth : Nat → Nat) (H : PairHeap) (base : PairSlice)
    (key : GoString) : PairHeap × PairSlice :=
  removeHeaderMapValueLoop growth H base key 0 (H.read base)

/-- Go `LocalHttpResponse`, its headers a slice. -/
structure LocalHttpResponse where
  StatusCode : Nat
  StatusCodeDetail : GoString
  Data : Bytes
  Headers : PairSlice
  GRPCStatus : Int
  deriving DecidableEq, Repr

/-- Go `httpStreamState`, its header maps slices. -/
structure httpStreamState where
  requestHeaders : PairSlice
  responseHeaders : PairSlice
  requestTrailers : PairSlice
  responseTrailers : PairSlice
  requestBody : Bytes
  responseBody : Bytes
  action : Action
  sentLocalResponse : Option LocalHttpResponse
  deriving DecidableEq, Repr

/-- Go `httpHostEmulator`, with the backing arrays of the header slices. -/
structure httpHostEmulator where
  heap : PairHeap
  httpStreams : Nat → Option httpStreamState

/-- The emulator after a header-map call: the new arrays, and the record of
`id` become `s`. -/
def httpHostEmulator.store (e : httpHostEmulator) (H : PairHeap) (id : Nat)
    (s : httpStreamState) : httpHostEmulator :=
  { heap := H, httpStreams := fun j => if j = id then some s else e.httpStreams j }

/-- Go `ProxyAddHeaderMapValue`, on slices. -/
def ProxyAddHeaderMapValue (growth : Nat → Nat) (e : httpHostEmulator) (active : Nat)
    (mapType : MapType) (key value : GoString) : Except Fault (Status × httpHostEmulator) :=
  match mapType with
  | .HttpRequestHeaders =>
    match e.httpStreams active with
    | none => .error .nilDereference
    | some stream =>
      let r := addMapValue growth e.heap stream.requestHeaders key value
      .ok (.OK, e.store r.1 active { stream with requestHeaders := r.2 })
  | .HttpResponseHeaders =>
    match e.httpStreams active with
    | none => .error .nilDereference
    | some stream =>
      let r := addMapValue growth e.heap stream.responseHeaders key value
      .ok (.OK, e.store r.1 active { stream with responseHeaders := r.2 })
  | .HttpRequestTrailers =>
    match e.httpStreams active with
    | none => .error .nilDereference
    | some stream =>
      let r := addMapValue growth e.heap stream.requestTrailers key value
      .ok (.OK, e.store r.1 active { stream with requestTrailers := r.2 })
  | .HttpResponseTrailers =>
    match e.httpStreams active with
    | none => .error .nilDereference
    | some stream =>
      let r := addMapValue growth e.heap stream.responseTrailers key value
      .ok (.OK, e.store r.1 active { stream with responseTrailers := r.2 })
  | .other _ => .error .unreachable

/-- Go `ProxyReplaceHeaderMapValue`, on slices. -/
def ProxyReplaceHeaderMapValue (growth : Nat → Nat) (e : httpHostEmulator) (active : Nat)
    (mapType : MapType) (key value : GoString) : Except Fault (Status × httpHostEmulator) :=
  match mapType with
  | .HttpRequestHeaders =>
    match e.httpStreams active with
    | none => .error .nilDereference
    | some stream =>
      let r := replaceMapValue growth e.heap stream.requestHeaders key value
      .ok (.OK, e.store r.1 active { stream with requestHeaders := r.2 })
  | .HttpResponseHeaders =>
    match e.httpStreams active with
    | none => .error .nilDereference
    | some stream =>
      let r := replaceMapValue growth e.heap stream.responseHeaders key value
      .ok (.OK, e.store r.1 active { stream with responseHeaders := r.2 })
  | .HttpRequestTrailers =>
    match e.httpStreams active with
    | none => .error .nilDereference
    | some stream =>
      let r := replaceMapValue growth e.heap stream.requestTrailers key value
      .ok (.OK, e.store r.1 active { stream with requestTrailers := r.2 })
  | .HttpResponseTrailers =>
    match e.httpStreams active with
    | none => .error .nilDereference
    | some stream =>
      let r := replaceMapValue growth e.heap stream.responseTrailers key value
      .ok (.OK, e.store r.1 active { stream with responseTrailers := r.2 })
  | .other _ => .error .unreachable

/-- Go `ProxyRemoveHeaderMapValue`, on slices. -/
def ProxyRemoveHeaderMapValue (growth : Nat → Nat) (e : httpHostEmulator) (active : Nat)
    (mapType : MapType) (key : GoString) : Except Fault (Status × httpHostEmulator) :=
  match mapType with
  | .HttpRequestHeaders =>
    match e.httpStreams active with
    | none => .error .nilDereference
    | some stream =>
      let r := removeHeaderMapValue growth e.heap stream.requestHeaders key
      .ok (.OK, e.store r.1 active { stream with requestHeaders := r.2 })
  | .HttpResponseHeaders =>
    match e.httpStreams active with
    | none => .error .nilDereference
    | some stream =>
      let r := removeHeaderMapValue growth e.heap stream.responseHeaders key
      .ok (.OK, e.store r.1 active { stream with responseHeaders := r.2 })
  | .HttpRequestTrailers =>
    match e.httpStreams active with
    | none => .error .nilDereference
    | some stream =>
      let r := removeHeaderMapValue growth e.heap stream.requestTrailers key
      .ok (.OK, e.store r.1 active { stream with requestTrailers := r.2 })
  | .HttpResponseTrailers =>
    match e.httpStreams active with
    | none => .error .nilDereference
    | some stream =>
      let r := removeHeaderMapValue growth e.heap stream.responseTrailers key
      .ok (.OK, e.store r.1 active { stream with responseTrailers := r.2 })
  | .other _ => .error .unreachable

/-- The slice of a record that a map selector names. -/
def httpStreamState.mapSlice (s : httpStreamState) : MapType → PairSlice
  | .HttpRequestHeaders => s.requestHeaders
  | .HttpResponseHeaders => s.responseHeaders
  | .HttpRequestTrailers => s.requestTrailers
  | .HttpResponseTrailers => s.responseTrailers
  | .other _ => ⟨0, 0, 0, 0⟩

/-- The record with the slice that a selector names set to `k`. -/
def httpStreamState.withMapSlice (s : httpStreamState) (mt : MapType) (k : PairSlice) :
    httpStreamState :=
  match mt with
  | .HttpRequestHeaders => { s with requestHeaders := k }
  | .HttpResponseHeaders => { s with responseHeaders := k }
  | .HttpRequestTrailers => { s with requestTrailers := k }
  | .HttpResponseTrailers => { s with responseTrailers := k }
  | .other _ => s

/-- The values a record holds: every header slice read in the arrays `H`. -/
def httpStreamState.view (H : PairHeap) (s : httpStreamState) : ProxyTest.httpStreamState :=
  { requestHeaders := H.read s.requestHeaders
    responseHeaders := H.read s.responseHeaders
    requestTrailers := H.read s.requestTrailers
    responseTrailers := H.read s.responseTrailers
    requestBody := s.requestBody
    responseBody := s.responseBody
    action := s.action
    sentLocalResponse := s.sentLocalResponse.map fun r =>
      { StatusCode := r.StatusCode, StatusCodeDetail := r.StatusCodeDetail, Data := r.Data,
        Headers := H.read r.Headers, GRPCStatus := r.GRPCStatus } }

/-- The values the record of stream `id` holds after a header-map call, when
the call returned. -/
def viewAfter (r : Except Fault (Status × httpHostEmulator)) (id : Nat) :
    Option ProxyTest.httpStreamState :=
  match r with
  | .ok p => (p.2.httpStreams id).map (httpStreamState.view p.2.heap)
  | .error _ => none

end Slices

/-! ## Selectors used to state the properties -/

/-- A header-map mutation: add, replace or remove. -/
inductive HeaderMutation where
  | add (key value : GoString)
  | replace (key value : GoString)
  | remove (key : GoString)
  deriving DecidableEq, Repr

/-- The body buffer of a record that a buffer selector names. -/
def httpStreamState.body (s : httpStreamState) : BufferType → Bytes
  | .HttpRequestBody => s.requestBody
  | .HttpResponseBody => s.responseBody
  | .other _ => []

/-- The selector names one of the two body buffers. -/
def BufferType.isBody : BufferType → Bool
  | .HttpRequestBody => true
  | .HttpResponseBody => true
  | .other _ => false

/-- The record with the body buffer that a selector names set to `b`. -/
def httpStreamState.withBody (s : httpStreamState) (bt : BufferType) (b : Bytes) :
    httpStreamState :=
  match bt with
  | .HttpRequestBody => { s with requestBody := b }
  | .HttpResponseBody => { s with responseBody := b }
  | .other _ => s

/-- The map of a record that a map selector names. -/
def httpStreamState.headerMap (s : httpStreamState) : MapType → Headers
  | .HttpRequestHeaders => s.requestHeaders
  | .HttpResponseHeaders => s.responseHeaders
  | .HttpRequestTrailers => s.requestTrailers
  | .HttpResponseTrailers => s.responseTrailers
  | .other _ => []

/-- The selector names one of the four maps of a stream. -/
def MapType.isStreamMap : MapType → Bool
  | .other _ => false
  | _ => true

/-- The record with the map that a selector names set to `m`. -/
def httpStreamState.withHeaderMap (s : httpStreamState) (mt : MapType) (m : Headers) :
    httpStreamState :=
  match mt with
  | .HttpRequestHeaders => { s with requestHeaders := m }
  | .HttpResponseHeaders => { s with responseHeaders := m }
  | .HttpRequestTrailers => { s with requestTrailers := m }
  | .HttpResponseTrailers => { s with responseTrailers := m }
  | .other _ => s

/-- The host call of a header-map mutation, on slices. -/
def HeaderMutation.run (op : HeaderMutation) (growth : Nat → Nat) (e : Slices.httpHostEmulator)
    (active : Nat) (mapType : MapType) : Except Fault (Status × Slices.httpHostEmulator) :=
  match op with
  | .add key value => Slices.ProxyAddHeaderMapValue growth e active mapType key value
  | .replace key value => Slices.ProxyReplaceHeaderMapValue growth e active mapType key value
  | .remove key => Slices.ProxyRemoveHeaderMapValue growth e active mapType key

/-- What a header-map mutation makes of the arrays and of the slice it targets. -/
def HeaderMutation.onSlice (op : HeaderMutation) (growth : Nat → Nat) (H : PairHeap)
    (base : PairSlice) : PairHeap × PairSlice :=
  match op with
  | .add key value => Slices.addMapValue growth H base key value
  | .replace key value => Slices.replaceMapValue growth H base key value
  | .remove key => Slices.removeHeaderMapValue growth H base key

/-- What a header-map mutation makes of the value of the map it targets. -/
def HeaderMutation.onMap (op : HeaderMutation) (base : Headers) : Headers :=
  match op with
  | .add key value => addMapValue base key value
  | .replace key value => replaceMapValue base key value
  | .remove key => removeHeaderMapValue base key

/-- One state-changing host call of the emulator, with any active context and
any arguments, taking the store `h` to `h2`. These are all the host calls of the
file that assign anything; the read calls (get bytes, get header value, get all
pairs) leave the store as it is. -/
inductive HostStep : httpHostEmulator → httpHostEmulator → Prop where
  | setBufferBytes {h h2 : httpHostEmulator} (active : Nat) (bt : BufferType)
      (start maxSize : Int) (body : Bytes) (st : Status) :
      httpHostEmulatorProxySetBufferBytes h active bt start maxSize body = .ok (st, h2) →
      HostStep h h2
  | addHeaderMapValue {h h2 : httpHostEmulator} (active : Nat) (mapType : MapType)
      (key value : GoString) (st : Status) :
      ProxyAddHeaderMapValue h active mapType key value = .ok (st, h2) → HostStep h h2
  | replaceHeaderMapValue {h h2 : httpHostEmulator} (active : Nat) (mapType : MapType)
      (key value : GoString) (st : Status) :
      ProxyReplaceHeaderMapValue h active mapType key value = .ok (st, h2) → HostStep h h2
  | removeHeaderMapValue {h h2 : httpHostEmulator} (active : Nat) (mapType : MapType)
      (key : GoString) (st : Status) :
      ProxyRemoveHeaderMapValue h active mapType key = .ok (st, h2) → HostStep h h2
  | setHeaderMapPairs {h h2 : httpHostEmulator} (active : Nat) (mapType : MapType)
      (mapData : Bytes) (st : Status) :
      ProxySetHeaderMapPairs h active mapType mapData = .ok (st, h2) → HostStep h h2
  | continueStream {h h2 : httpHostEmulator} (active : Nat) (st : Status) :
      ProxyContinueStream h active = .ok (st, h2) → HostStep h h2
  | sendLocalResponse {h h2 : httpHostEmulator} (active : Nat) (statusCode : Nat)
      (statusCodeDetail : GoString) (body headers : Bytes) (grpcStatus : Int) (st : Status) :
      ProxySendLocalResponse h active statusCode statusCodeDetail body headers grpcStatus
        = .ok (st, h2) → HostStep h h2

/-- The store `h2` comes from `h` by zero or more host calls: what a callback
can do to the emulator. -/
inductive HostCalls : httpHostEmulator → httpHostEmulator → Prop where
  | done (h : httpHostEmulator) : HostCalls h h
  | call {h h1 h2 : httpHostEmulator} : HostStep h h1 → HostCalls h1 h2 → HostCalls h h2

/-- The slice `t` cannot be written through the slice `K`: it is empty, or it
is a slice of another allocated array. -/
def PairHeap.separate (H : PairHeap) (K t : PairSlice) : Prop :=
  t.len = 0 ∨ (t.arr ≠ K.arr ∧ t.arr < H.next)

/-- Every header slice of a record, the headers of its local response
included, is separate from `K`. -/
def Slices.httpStreamState.separateFrom (r : Slices.httpStreamState) (H : PairHeap)
    (K : PairSlice) : Prop :=
  H.separate K r.requestHeaders ∧ H.separate K r.responseHeaders
  ∧ H.separate K r.requestTrailers ∧ H.separate K r.responseTrailers
  ∧ ∀ l, r.sentLocalResponse = some l → H.separate K l.Headers

/-- A slice lies inside its backing array, within its capacity. -/
def PairHeap.holds (H : PairHeap) (s : PairSlice) : Prop :=
  s.len ≤ s.cap ∧ s.off + s.cap ≤ (H.arrays s.arr).length

/-- The status a host call returned, when it returned. -/
def statusOf {α : Type} (r : Except Fault (Status × α)) : Option Status :=
  match r with
  | .ok p => some p.1
  | .error _ => none

/-- The record of stream `id` after a host call, when the call returned. -/
def recordAfter (r : Except Fault (Status × httpHostEmulator)) (id : Nat) :
    Option httpStreamState :=
  match r with
  | .ok p => p.2.httpStreams id
  | .error _ => none

/-- The scenario "remove `key` from map `mapType`, then get `key` from the same
map" on the active stream: what the get call returns. -/
def removeThenGet (h : httpHostEmulator) (active : Nat) (mapType : MapType) (key : GoString) :
    Except Fault (Status × Option ReturnedValue) :=
  match ProxyRemoveHeaderMapValue h active mapType key with
  | .ok p => httpHostEmulatorProxyGetHeaderMapValue p.2 active mapType key
  | .error e => .error e

/-- The number of pairs of `m` whose key is `key`. -/
def keyCount (m : Headers) (key : GoString) : Nat :=
  m.countP (fun p => decide (p.1 = key))

/-- The action a delivery call returned, when it returned. -/
def deliveryAction {σ : Type} (r : Except Fault (Action × (σ × httpHostEmulator))) :
    Option Action :=
  match r with
  | .ok p => some p.1
  | .error _ => none

/-- The record of stream `id` after a delivery call, when the call returned. -/
def deliveryRecord {σ : Type} (r : Except Fault (Action × (σ × httpHostEmulator))) (id : Nat) :
    Option httpStreamState :=
  match r with
  | .ok p => p.2.2.httpStreams id
  | .error _ => none

/-- The callback invocations recorded by a traced extension after a delivery
call, when the call returned. -/
def deliveryEvents {σ : Type}
    (r : Except Fault (Action × ((List CallbackEvent × σ) × httpHostEmulator))) :
    Option (List CallbackEvent) :=
  match r with
  | .ok p => some p.2.1.1
  | .error _ => none

/-- The record of stream `id` after `CompleteHttpContext`, when it returned. -/
def completionRecord {σ : Type} (r : Except Fault (σ × httpHostEmulator)) (id : Nat) :
    Option httpStreamState :=
  match r with
  | .ok p => p.2.httpStreams id
  | .error _ => none

/-- What `GetCurrentHttpStreamAction` answers for `id` after
`CompleteHttpContext`, when that returned. -/
def completionLookup {σ : Type} (r : Except Fault (σ × httpHostEmulator)) (id : Nat) :
    Except Fault Action :=
  match r with
  | .ok p => GetCurrentHttpStreamAction p.2 id
  | .error e => .error e

/-! ## Concrete states -/

/-- A record with the given request and response bodies and nothing else. -/
def streamWithBodies (req resp : Bytes) : httpStreamState :=
  { requestHeaders := [], responseHeaders := [], requestTrailers := [], responseTrailers := [],
    requestBody := req, responseBody := resp, action := .Continue, sentLocalResponse := none }

/-- A record with the given request headers and nothing else. -/
def streamWithRequestHeaders (hs : Headers) : httpStreamState :=
  { requestHeaders := hs, responseHeaders := [], requestTrailers := [], responseTrailers := [],
    requestBody := [], responseBody := [], action := .Continue, sentLocalResponse := none }

/-- A record with the given action and local response and nothing else. -/
def streamWithLocalResponse (a : Action) (r : Option LocalHttpResponse) : httpStreamState :=
  { requestHeaders := [], responseHeaders := [], requestTrailers := [], responseTrailers := [],
    requestBody := [], responseBody := [], action := a, sentLocalResponse := r }

/-- A record of slices with the given request and response headers and nothing else. -/
def Slices.streamWithHeaders (req resp : PairSlice) : Slices.httpStreamState :=
  { requestHeaders := req, responseHeaders := resp, requestTrailers := ⟨0, 0, 0, 0⟩,
    responseTrailers := ⟨0, 0, 0, 0⟩, requestBody := [], responseBody := [],
    action := .Continue, sentLocalResponse := none }

/-- Two backing arrays: array 0 holds `[("a", "x"), ("b", "y")]`, array 1 holds
`[("c", "w")]`. -/
def twoArrays : PairHeap :=
  { arrays := fun j =>
      if j = 0 then [([97], [120]), ([98], [121])] else if j = 1 then [([99], [119])] else []
    next := 2 }

/-- The state after the harness delivered one slice, all of array 0, as the
request headers and as the response headers of stream 1 and as the request
headers of stream 2: the three maps share array 0. The response headers of
stream 2 are array 1. -/
def sharedSlices : Slices.httpHostEmulator :=
  { heap := twoArrays
    httpStreams := fun j =>
      if j = 1 then some (Slices.streamWithHeaders ⟨0, 0, 2, 2⟩ ⟨0, 0, 2, 2⟩)
      else if j = 2 then some (Slices.streamWithHeaders ⟨0, 0, 2, 2⟩ ⟨1, 0, 1, 1⟩)
      else none }

/-- A state in which every map has an array of its own: stream 1 has array 0 as
request headers and array 1 as response headers. -/
def separateSlices : Slices.httpHostEmulator :=
  { heap := twoArrays
    httpStreams := fun j =>
      if j = 1 then some (Slices.streamWithHeaders ⟨0, 0, 2, 2⟩ ⟨1, 0, 1, 1⟩) else none }

/-- An emulator whose only stream is context 1, with record `s`. -/
def singleStream (s : httpStreamState) : httpHostEmulator :=
  newHttpHostEmulator.store 1 s

/-! ## Shared lemmas -/

theorem store_same (h : httpHostEmulator) (active : Nat) (s : httpStreamState)
    (hs : h.httpStreams active = some s) : h.store active s = h := by
  cases h with
  | mk f =>
    simp only [httpHostEmulator.store, httpHostEmulator.mk.injEq]
    funext j
    by_cases hj : j = active
    · subst hj
      simpa using hs.symm
    · simp [hj]

theorem store_lookup_self (h : httpHostEmulator) (id : Nat) (s : httpStreamState) :
    (h.store id s).httpStreams id = some s := by
  simp [httpHostEmulator.store]

theorem store_lookup_other (h : httpHostEmulator) (id j : Nat) (s : httpStreamState)
    (hj : j ≠ id) : (h.store id s).httpStreams j = h.httpStreams j := by
  simp [httpHostEmulator.store, hj]

theorem withBody_body (s : httpStreamState) (bt : BufferType) : s.withBody bt (s.body bt) = s := by
  cases bt <;> rfl

/-- On a registered stream and a body selector, the set-bytes call is the
if-chain of lines 96-114 applied to the selected buffer. -/
theorem setBufferBytes_eq (h : httpHostEmulator) (active : Nat) (s : httpStreamState)
    (bt : BufferType) (start maxSize : Int) (body : Bytes)
    (hs : h.httpStreams active = some s) (hbt : bt.isBody = true) :
    httpHostEmulatorProxySetBufferBytes h active bt start maxSize body
      = .ok ((setBufferBytesOn (s.body bt) start maxSize body).1,
          h.store active (s.withBody bt (setBufferBytesOn (s.body bt) start maxSize body).2)) := by
  cases bt with
  | HttpRequestBody =>
    simp [httpHostEmulatorProxySetBufferBytes, hs, httpStreamState.body, httpStreamState.withBody]
  | HttpResponseBody =>
    simp [httpHostEmulatorProxySetBufferBytes, hs, httpStreamState.body, httpStreamState.withBody]
  | other c => simp [BufferType.isBody] at hbt

theorem withHeaderMap_headerMap (s : httpStreamState) (mt : MapType) (m : Headers)
    (hmt : mt.isStreamMap = true) : (s.withHeaderMap mt m).headerMap mt = m := by
  cases mt with
  | other c => simp [MapType.isStreamMap] at hmt
  | _ => rfl

theorem set_at_length (pre post : Headers) (x y : GoString × GoString) :
    (pre ++ x :: post).set pre.length y = pre ++ y :: post := by
  induction pre with
  | nil => rfl
  | cons a pre ih => simp [List.set, ih]

theorem take_at_length (pre rest : Headers) : (pre ++ rest).take pre.length = pre := by
  induction pre with
  | nil => simp
  | cons a pre ih => simp [List.take, ih]

theorem drop_after_length (pre post : Headers) (x : GoString × GoString) :
    (pre ++ x :: post).drop (pre.length + 1) = post := by
  induction pre with
  | nil => simp
  | cons a pre ih => simp [List.drop, ih]

/-- Every list with a pair keyed `key` splits at its first such pair. -/
theorem first_key_split (key : GoString) (m : Headers) (hex : ∃ p ∈ m, p.1 = key) :
    ∃ pre old post, m = pre ++ (key, old) :: post ∧ ∀ p ∈ pre, p.1 ≠ key := by
  induction m with
  | nil =>
    obtain ⟨p, hp, _⟩ := hex
    cases hp
  | cons x xs ih =>
    by_cases hx : x.1 = key
    · refine ⟨[], x.2, xs, ?_, ?_⟩
      · rw [← hx]; rfl
      · intro p hp; cases hp
    · have hex2 : ∃ p ∈ xs, p.1 = key := by
        obtain ⟨p, hp, hk⟩ := hex
        rcases List.mem_cons.mp hp with hpx | hpx
        · exact absurd (hpx ▸ hk) hx
        · exact ⟨p, hpx, hk⟩
      obtain ⟨pre, old, post, hm, hpre⟩ := ih hex2
      refine ⟨x :: pre, old, post, ?_, ?_⟩
      · rw [hm]; rfl
      · intro p hp
        rcases List.mem_cons.mp hp with hpx | hpx
        · rw [hpx]; exact hx
        · exact hpre p hpx

/-- The get loop answers NotFound exactly on lists with no pair keyed `key`. -/
theorem getHeaderValueLoop_notFound_iff (key : GoString) (m : Headers) :
    getHeaderValueLoop key m = .ok (.NotFound, none) ↔ ∀ p ∈ m, p.1 ≠ key := by
  induction m with
  | nil => simp [getHeaderValueLoop]
  | cons x xs ih =>
    by_cases hx : x.1 = key
    · by_cases hv : x.2.length = 0
      · simp [getHeaderValueLoop, hx, hv]
      · simp [getHeaderValueLoop, hx, hv]
    · simp [getHeaderValueLoop, hx, ih]

/-- The get loop skips pairs with another key. -/
theorem getHeaderValueLoop_skip (key : GoString) (pre rest : Headers)
    (hpre : ∀ p ∈ pre, p.1 ≠ key) :
    getHeaderValueLoop key (pre ++ rest) = getHeaderValueLoop key rest := by
  induction pre with
  | nil => rfl
  | cons x pre ih =>
    have hx : x.1 ≠ key := hpre x (List.mem_cons_self x pre)
    have hrest : ∀ p ∈ pre, p.1 ≠ key := fun p hp => hpre p (List.mem_cons_of_mem x hp)
    simp [getHeaderValueLoop, hx, ih hrest]

/-- On a registered stream and a stream map, the get call is the loop on the
selected map. -/
theorem getHeaderMapValue_eq (h : httpHostEmulator) (active : Nat) (s : httpStreamState)
    (mt : MapType) (key : GoString)
    (hs : h.httpStreams active = some s) (hmt : mt.isStreamMap = true) :
    httpHostEmulatorProxyGetHeaderMapValue h active mt key
      = getHeaderValueLoop key (s.headerMap mt) := by
  cases mt with
  | other c => simp [MapType.isStreamMap] at hmt
  | _ => simp [httpHostEmulatorProxyGetHeaderMapValue, hs, httpStreamState.headerMap]

/-- The add loop, started at the end of `pre`, when the first pair keyed `key`
comes after `mid`. -/
theorem addMapValueLoop_found (key value old : GoString) (mid : Headers) :
    ∀ (pre post : Headers), (∀ p ∈ mid, p.1 ≠ key) →
      addMapValueLoop (pre ++ (mid ++ (key, old) :: post)) key value pre.length
          (mid ++ (key, old) :: post)
        = pre ++ (mid ++ (key, old ++ value) :: post) := by
  induction mid with
  | nil =>
    intro pre post _
    simp [addMapValueLoop, set_at_length]
  | cons x mid ih =>
    intro pre post hmid
    have hx : x.1 ≠ key := hmid x (List.mem_cons_self x mid)
    have hrest : ∀ p ∈ mid, p.1 ≠ key := fun p hp => hmid p (List.mem_cons_of_mem x hp)
    have step := ih (pre ++ [x]) post hrest
    simp only [List.length_append, List.length_singleton, List.append_assoc,
      List.singleton_append] at step
    simpa [addMapValueLoop, hx] using step

theorem addMapValueLoop_absent (base : Headers) (key value : GoString) (rest : Headers) :
    ∀ (i : Nat), (∀ p ∈ rest, p.1 ≠ key) →
      addMapValueLoop base key value i rest = base ++ [(key, value)] := by
  induction rest with
  | nil => intro i _; rfl
  | cons x rest ih =>
    intro i hrest
    have hx : x.1 ≠ key := hrest x (List.mem_cons_self x rest)
    have hr : ∀ p ∈ rest, p.1 ≠ key := fun p hp => hrest p (List.mem_cons_of_mem x hp)
    simp [addMapValueLoop, hx, ih (i + 1) hr]

/-- The replace loop, started at the end of `pre`, when the first pair keyed
`key` comes after `mid`. -/
theorem replaceMapValueLoop_found (key value old : GoString) (mid : Headers) :
    ∀ (pre post : Headers), (∀ p ∈ mid, p.1 ≠ key) →
      replaceMapValueLoop (pre ++ (mid ++ (key, old) :: post)) key value pre.length
          (mid ++ (key, old) :: post)
        = pre ++ (mid ++ (key, value) :: post) := by
  induction mid with
  | nil =>
    intro pre post _
    simp [replaceMapValueLoop, set_at_length]
  | cons x mid ih =>
    intro pre post hmid
    have hx : x.1 ≠ key := hmid x (List.mem_cons_self x mid)
    have hrest : ∀ p ∈ mid, p.1 ≠ key := fun p hp => hmid p (List.mem_cons_of_mem x hp)
    have step := ih (pre ++ [x]) post hrest
    simp only [List.length_append, List.length_singleton, List.append_assoc,
      List.singleton_append] at step
    simpa [replaceMapValueLoop, hx] using step

theorem replaceMapValueLoop_absent (base : Headers) (key value : GoString) (rest : Headers) :
    ∀ (i : Nat), (∀ p ∈ rest, p.1 ≠ key) →
      replaceMapValueLoop base key value i rest = base ++ [(key, value)] := by
  induction rest with
  | nil => intro i _; rfl
  | cons x rest ih =>
    intro i hrest
    have hx : x.1 ≠ key := hrest x (List.mem_cons_self x rest)
    have hr : ∀ p ∈ rest, p.1 ≠ key := fun p hp => hrest p (List.mem_cons_of_mem x hp)
    simp [replaceMapValueLoop, hx, ih (i + 1) hr]

/-- The remove loop, started at the end of `pre`, erases the first pair keyed
`key` of what is left to visit. -/
theorem removeHeaderMapValueLoop_eq (key : GoString) (rest : Headers) :
    ∀ (pre : Headers),
      removeHeaderMapValueLoop (pre ++ rest) key pre.length rest
        = pre ++ rest.eraseP (fun p => decide (p.1 = key)) := by
  induction rest with
  | nil => intro pre; simp [removeHeaderMapValueLoop]
  | cons x rest ih =>
    intro pre
    by_cases hx : x.1 = key
    · have htake := take_at_length pre (x :: rest)
      have hdrop := drop_after_length pre rest x
      by_cases hlast : ((pre ++ x :: rest).length : Int) - 1 = (pre.length : Int)
      · have hnil : rest = [] := by
          have hl : rest.length = 0 := by
            simp only [List.length_append, List.length_cons] at hlast
            omega
          exact List.length_eq_zero.mp hl
        simp only [removeHeaderMapValueLoop]
        rw [if_pos hx, if_pos hlast, htake]
        simp [hx, hnil]
      · simp only [removeHeaderMapValueLoop]
        rw [if_pos hx, if_neg hlast, htake, hdrop]
        simp [hx]
    · have step := ih (pre ++ [x])
      simp only [List.length_append, List.length_singleton, List.append_assoc,
        List.singleton_append] at step
      simpa [removeHeaderMapValueLoop, hx] using step

/-- Go `removeHeaderMapValue` erases the first pair keyed `key`. -/
theorem removeHeaderMapValue_eq_eraseP (m : Headers) (key : GoString) :
    removeHeaderMapValue m key = m.eraseP (fun p => decide (p.1 = key)) := by
  have hloop := removeHeaderMapValueLoop_eq key m []
  simpa [removeHeaderMapValue] using hloop

/-- Erasing the first pair keyed `key` of a list with at most one such pair
leaves none. -/
theorem eraseP_key_absent (key : GoString) (m : Headers) (hc : keyCount m key ≤ 1) :
    ∀ p ∈ m.eraseP (fun p => decide (p.1 = key)), p.1 ≠ key := by
  induction m with
  | nil => intro p hp; cases hp
  | cons x xs ih =>
    by_cases hx : x.1 = key
    · have hzero : List.countP (fun p => decide (p.1 = key)) xs = 0 := by
        simp [keyCount, List.countP_cons, hx] at hc
        simpa using hc
      intro p hp
      have hp2 : p ∈ xs := by simpa [List.eraseP, hx] using hp
      have hnone := List.countP_eq_zero.mp hzero p hp2
      simpa using hnone
    · have hc2 : keyCount xs key ≤ 1 := by
        simpa [keyCount, List.countP_cons, hx] using hc
      intro p hp
      have hp2 : p = x ∨ p ∈ xs.eraseP (fun p => decide (p.1 = key)) := by
        simpa [List.eraseP, hx] using hp
      rcases hp2 with hpx | hpx
      · rw [hpx]; exact hx
      · exact ih hc2 p hpx

/-- The get loop returns the value of the first pair keyed `key` when that
value is not empty. -/
theorem getHeaderValueLoop_found (key value : GoString) (pre post : Headers)
    (hpre : ∀ p ∈ pre, p.1 ≠ key) (hv : value ≠ []) :
    getHeaderValueLoop key (pre ++ (key, value) :: post)
      = .ok (.OK, some ⟨value, (value.length : Int)⟩) := by
  rw [getHeaderValueLoop_skip key pre _ hpre]
  have hlen : value.length ≠ 0 := fun hz => hv (List.length_eq_zero.mp hz)
  simp [getHeaderValueLoop, hlen]

/-- On a registered stream and a stream map, the remove call stores the result
of `removeHeaderMapValue` in the selected map and returns OK. -/
theorem removeHeaderMapValue_call_eq (h : httpHostEmulator) (active : Nat)
    (s : httpStreamState) (mt : MapType) (key : GoString)
    (hs : h.httpStreams active = some s) (hmt : mt.isStreamMap = true) :
    ProxyRemoveHeaderMapValue h active mt key
      = .ok (.OK, h.store active
          (s.withHeaderMap mt (removeHeaderMapValue (s.headerMap mt) key))) := by
  cases mt with
  | other c => simp [MapType.isStreamMap] at hmt
  | _ =>
    simp [ProxyRemoveHeaderMapValue, hs, httpStreamState.headerMap,
      httpStreamState.withHeaderMap]

/-! ### Host calls keep the records -/

theorem store_isSome (h : httpHostEmulator) (active : Nat) (s s2 : httpStreamState)
    (hs : h.httpStreams active = some s) (j : Nat) :
    ((h.store active s2).httpStreams j).isSome = (h.httpStreams j).isSome := by
  by_cases hj : j = active
  · subst hj
    simp [httpHostEmulator.store, hs]
  · simp [httpHostEmulator.store, hj]

/-- A host call that returns gives a store that updates the record of a
registered stream. -/
theorem hostStep_is_store (h h2 : httpHostEmulator) (hstep : HostStep h h2) :
    ∃ active s s2, h.httpStreams active = some s ∧ h2 = h.store active s2 := by
  cases hstep with
  | setBufferBytes active bt start maxSize body st hcall =>
    cases hl : h.httpStreams active with
    | none => cases bt <;> simp [httpHostEmulatorProxySetBufferBytes, hl] at hcall
    | some s =>
      cases bt <;> simp [httpHostEmulatorProxySetBufferBytes, hl] at hcall <;>
        exact ⟨active, s, _, hl, hcall.2.symm⟩
  | addHeaderMapValue active mapType key value st hcall =>
    cases hl : h.httpStreams active with
    | none => cases mapType <;> simp [ProxyAddHeaderMapValue, hl] at hcall
    | some s =>
      cases mapType <;> simp [ProxyAddHeaderMapValue, hl] at hcall <;>
        exact ⟨active, s, _, hl, hcall.2.symm⟩
  | replaceHeaderMapValue active mapType key value st hcall =>
    cases hl : h.httpStreams active with
    | none => cases mapType <;> simp [ProxyReplaceHeaderMapValue, hl] at hcall
    | some s =>
      cases mapType <;> simp [ProxyReplaceHeaderMapValue, hl] at hcall <;>
        exact ⟨active, s, _, hl, hcall.2.symm⟩
  | removeHeaderMapValue active mapType key st hcall =>
    cases hl : h.httpStreams active with
    | none => cases mapType <;> simp [ProxyRemoveHeaderMapValue, hl] at hcall
    | some s =>
      cases mapType <;> simp [ProxyRemoveHeaderMapValue, hl] at hcall <;>
        exact ⟨active, s, _, hl, hcall.2.symm⟩
  | setHeaderMapPairs active mapType mapData st hcall =>
    cases hd : DeserializeMap mapData with
    | error err => simp [ProxySetHeaderMapPairs, hd] at hcall
    | ok m =>
      cases hl : h.httpStreams active with
      | none => cases mapType <;> simp [ProxySetHeaderMapPairs, hd, hl] at hcall
      | some s =>
        cases mapType <;> simp [ProxySetHeaderMapPairs, hd, hl] at hcall <;>
          exact ⟨active, s, _, hl, hcall.2.symm⟩
  | continueStream active st hcall =>
    cases hl : h.httpStreams active with
    | none => simp [ProxyContinueStream, hl] at hcall
    | some s =>
      simp [ProxyContinueStream, hl] at hcall
      exact ⟨active, s, _, hl, hcall.2.symm⟩
  | sendLocalResponse active statusCode detail body headers grpcStatus st hcall =>
    cases hd : DeserializeMap headers with
    | error err => simp [ProxySendLocalResponse, hd] at hcall
    | ok m =>
      cases hl : h.httpStreams active with
      | none => simp [ProxySendLocalResponse, hd, hl] at hcall
      | some s =>
        simp [ProxySendLocalResponse, hd, hl] at hcall
        exact ⟨active, s, _, hl, hcall.2.symm⟩

/-- Host calls neither add nor remove a record. -/
theorem hostCalls_keep_records (h h2 : httpHostEmulator) (hc : HostCalls h h2) (j : Nat) :
    (h2.httpStreams j).isSome = (h.httpStreams j).isSome := by
  induction hc with
  | done h => rfl
  | call hstep _ ih =>
    obtain ⟨active, s, s2, hs, rfl⟩ := hostStep_is_store _ _ hstep
    rw [ih, store_isSome _ active s s2 hs j]

/-! ### Header maps as slices -/

theorem writeAt_arrays_other (H : PairHeap) (a pos : Nat) (vals : Headers) (j : Nat)
    (hj : j ≠ a) : (H.writeAt a pos vals).arrays j = H.arrays j := by
  simp [PairHeap.writeAt, hj]

theorem appendValues_arrays_other (growth : Nat → Nat) (H : PairHeap) (s : PairSlice)
    (vals : Headers) (j : Nat) (hj : j ≠ s.arr) (hlt : j < H.next) :
    (H.appendValues growth s vals).1.arrays j = H.arrays j := by
  unfold PairHeap.appendValues
  split
  · exact writeAt_arrays_other H s.arr _ vals j hj
  · have hne : j ≠ H.next := Nat.ne_of_lt hlt
    simp [hne]

theorem slices_addMapValueLoop_other (growth : Nat → Nat) (H : PairHeap) (base : PairSlice)
    (key value : GoString) (j : Nat) (hj : j ≠ base.arr) (hlt : j < H.next)
    (rest : Headers) :
    ∀ (i : Nat),
      (Slices.addMapValueLoop growth H base key value i rest).1.arrays j = H.arrays j := by
  induction rest with
  | nil =>
    intro i
    exact appendValues_arrays_other growth H base _ j hj hlt
  | cons x rest ih =>
    intro i
    by_cases hx : x.1 = key
    · simp only [Slices.addMapValueLoop, hx, if_true]
      exact writeAt_arrays_other H base.arr _ _ j hj
    · simp only [Slices.addMapValueLoop, hx, if_false]
      exact ih (i + 1)

theorem slices_replaceMapValueLoop_other (growth : Nat → Nat) (H : PairHeap)
    (base : PairSlice) (key value : GoString) (j : Nat) (hj : j ≠ base.arr)
    (hlt : j < H.next) (rest : Headers) :
    ∀ (i : Nat),
      (Slices.replaceMapValueLoop growth H base key value i rest).1.arrays j = H.arrays j := by
  induction rest with
  | nil =>
    intro i
    exact appendValues_arrays_other growth H base _ j hj hlt
  | cons x rest ih =>
    intro i
    by_cases hx : x.1 = key
    · simp only [Slices.replaceMapValueLoop, hx, if_true]
      exact writeAt_arrays_other H base.arr _ _ j hj
    · simp only [Slices.replaceMapValueLoop, hx, if_false]
      exact ih (i + 1)

theorem slices_removeHeaderMapValueLoop_other (growth : Nat → Nat) (H : PairHeap)
    (base : PairSlice) (key : GoString) (j : Nat) (hj : j ≠ base.arr) (hlt : j < H.next)
    (rest : Headers) :
    ∀ (i : Nat),
      (Slices.removeHeaderMapValueLoop growth H base key i rest).1.arrays j = H.arrays j := by
  induction rest with
  | nil => intro i; rfl
  | cons x rest ih =>
    intro i
    by_cases hx : x.1 = key
    · by_cases hlast : (base.len : Int) - 1 = (i : Int)
      · simp only [Slices.removeHeaderMapValueLoop, hx, hlast, if_true]
      · simp only [Slices.removeHeaderMapValueLoop, hx, hlast, if_true, if_false]
        exact appendValues_arrays_other growth H (base.upTo i) _ j hj hlt
    · simp only [Slices.removeHeaderMapValueLoop, hx, if_false]
      exact ih (i + 1)

/-- A header-map mutation through the slice `base` leaves every other allocated
array as it was. -/
theorem onSlice_arrays_other (op : HeaderMutation) (growth : Nat → Nat) (H : PairHeap)
    (base : PairSlice) (j : Nat) (hj : j ≠ base.arr) (hlt : j < H.next) :
    (op.onSlice growth H base).1.arrays j = H.arrays j := by
  cases op with
  | add key value => exact slices_addMapValueLoop_other growth H base key value j hj hlt _ 0
  | replace key value =>
    exact slices_replaceMapValueLoop_other growth H base key value j hj hlt _ 0
  | remove key => exact slices_removeHeaderMapValueLoop_other growth H base key j hj hlt _ 0

/-- A slice that is separate from `base` reads the same after a header-map
mutation through `base`. -/
theorem onSlice_read_separate (op : HeaderMutation) (growth : Nat → Nat) (H : PairHeap)
    (base t : PairSlice) (hsep : H.separate base t) :
    (op.onSlice growth H base).1.read t = H.read t := by
  rcases hsep with hz | ⟨hne, hlt⟩
  · simp [PairHeap.read, hz]
  · simp only [PairHeap.read, onSlice_arrays_other op growth H base t.arr hne hlt]

/-- A record whose slices are all separate from `base` holds the same values
after a header-map mutation through `base`. -/
theorem onSlice_view_separate (op : HeaderMutation) (growth : Nat → Nat) (H : PairHeap)
    (base : PairSlice) (r : Slices.httpStreamState) (hsep : r.separateFrom H base) :
    r.view (op.onSlice growth H base).1 = r.view H := by
  obtain ⟨h1, h2, h3, h4, h5⟩ := hsep
  have hl : r.sentLocalResponse.map (fun l : Slices.LocalHttpResponse =>
        ({ StatusCode := l.StatusCode, StatusCodeDetail := l.StatusCodeDetail, Data := l.Data,
            Headers := (op.onSlice growth H base).1.read l.Headers,
            GRPCStatus := l.GRPCStatus } : LocalHttpResponse))
      = r.sentLocalResponse.map (fun l : Slices.LocalHttpResponse =>
        ({ StatusCode := l.StatusCode, StatusCodeDetail := l.StatusCodeDetail, Data := l.Data,
            Headers := H.read l.Headers, GRPCStatus := l.GRPCStatus } : LocalHttpResponse)) := by
    cases hr : r.sentLocalResponse with
    | none => rfl
    | some l =>
      simp only [Option.map_some', onSlice_read_separate op growth H base l.Headers (h5 l hr)]
  simp only [Slices.httpStreamState.view, onSlice_read_separate op growth H base _ h1,
    onSlice_read_separate op growth H base _ h2, onSlice_read_separate op growth H base _ h3,
    onSlice_read_separate op growth H base _ h4, hl]

/-- On a registered stream and a stream map, a header-map mutation returns OK,
with the arrays and the slice its loop gives. -/
theorem headerMutation_run_eq (op : HeaderMutation) (growth : Nat → Nat)
    (e : Slices.httpHostEmulator) (active : Nat) (s : Slices.httpStreamState) (mt : MapType)
    (hs : e.httpStreams active = some s) (hmt : mt.isStreamMap = true) :
    op.run growth e active mt
      = .ok (.OK, e.store (op.onSlice growth e.heap (s.mapSlice mt)).1 active
          (s.withMapSlice mt (op.onSlice growth e.heap (s.mapSlice mt)).2)) := by
  cases op with
  | add key value =>
    cases mt with
    | other c => simp [MapType.isStreamMap] at hmt
    | _ =>
      simp [HeaderMutation.run, HeaderMutation.onSlice, Slices.ProxyAddHeaderMapValue, hs,
        Slices.httpStreamState.mapSlice, Slices.httpStreamState.withMapSlice]
  | replace key value =>
    cases mt with
    | other c => simp [MapType.isStreamMap] at hmt
    | _ =>
      simp [HeaderMutation.run, HeaderMutation.onSlice, Slices.ProxyReplaceHeaderMapValue, hs,
        Slices.httpStreamState.mapSlice, Slices.httpStreamState.withMapSlice]
  | remove key =>
    cases mt with
    | other c => simp [MapType.isStreamMap] at hmt
    | _ =>
      simp [HeaderMutation.run, HeaderMutation.onSlice, Slices.ProxyRemoveHeaderMapValue, hs,
        Slices.httpStreamState.mapSlice, Slices.httpStreamState.withMapSlice]

theorem read_length (H : PairHeap) (s : PairSlice) (hh : H.holds s) :
    (H.read s).length = s.len := by
  obtain ⟨h1, h2⟩ := hh
  simp only [PairHeap.read, List.length_take, List.length_drop]
  omega

theorem read_upTo (H : PairHeap) (s : PairSlice) (i : Nat) (hi : i ≤ s.len) :
    H.read (s.upTo i) = (H.read s).take i := by
  simp only [PairHeap.read, PairSlice.upTo, List.take_take, Nat.min_eq_left hi]

theorem read_startingAt (H : PairHeap) (s : PairSlice) (i : Nat) :
    H.read (s.startingAt i) = (H.read s).drop i := by
  simp only [PairHeap.read, PairSlice.startingAt, List.drop_take, List.drop_drop]

/-- Appending through a slice that lies in its array: the slice returned reads
as the old elements followed by the new ones. -/
theorem read_appendValues (growth : Nat → Nat) (H : PairHeap) (s : PairSlice) (vals : Headers)
    (hh : H.holds s) :
    (H.appendValues growth s vals).1.read (H.appendValues growth s vals).2
      = H.read s ++ vals := by
  have hlen := read_length H s hh
  obtain ⟨h1, h2⟩ := hh
  unfold PairHeap.appendValues
  split
  · rename_i hfit
    simp only [PairHeap.read, PairHeap.writeAt, if_true]
    have hle : s.off ≤ ((H.arrays s.arr).take (s.off + s.len)).length := by
      simp only [List.length_take]; omega
    rw [List.append_assoc, List.drop_append_of_le_length hle, List.drop_take]
    have e1 : s.off + s.len - s.off = s.len := by omega
    rw [e1]
    have hl2 : (List.take s.len (List.drop s.off (H.arrays s.arr))).length = s.len := by
      simp only [List.length_take, List.length_drop]; omega
    rw [← List.append_assoc]
    have hl3 : (List.take s.len (List.drop s.off (H.arrays s.arr)) ++ vals).length
        = s.len + vals.length := by
      rw [List.length_append, hl2]
    rw [List.take_left' hl3]
  · simp only [PairHeap.read, if_true, List.drop_zero]
    have hl3 : (List.take s.len (List.drop s.off (H.arrays s.arr)) ++ vals).length
        = s.len + vals.length := by
      have := hlen
      simp only [PairHeap.read] at this
      rw [List.length_append, this]
    rw [List.take_left' hl3]

/-- Writing one element inside a slice that lies in its array sets that element. -/
theorem read_writeAt (H : PairHeap) (s : PairSlice) (i : Nat) (x : GoString × GoString)
    (hh : H.holds s) (hi : i < s.len) :
    (H.writeAt s.arr (s.off + i) [x]).read s = (H.read s).set i x := by
  obtain ⟨h1, h2⟩ := hh
  have hmin : min (s.off + i) (H.arrays s.arr).length = s.off + i :=
    Nat.min_eq_left (by omega)
  have hmin2 : min s.len ((H.arrays s.arr).length - s.off) = s.len :=
    Nat.min_eq_left (by omega)
  apply List.ext_getElem?
  intro n
  simp only [PairHeap.read, PairHeap.writeAt, if_true, List.getElem?_take, List.getElem?_drop,
    List.getElem?_append, List.getElem?_set, List.length_take, List.length_drop,
    List.length_append, List.length_singleton, List.length_cons, List.length_nil, hmin, hmin2]
  by_cases hn : n < s.len
  · rcases Nat.lt_trichotomy n i with hlt | heq | hgt
    · have a1 : s.off + n < s.off + i + (0 + 1) := by omega
      have a2 : s.off + n < s.off + i := by omega
      have a3 : ¬ i = n := by omega
      simp only [hn, a1, a2, a3, if_true, if_false]
    · subst heq
      have a1 : s.off + n < s.off + n + (0 + 1) := by omega
      have a2 : ¬ s.off + n < s.off + n := by omega
      simp [hn, a1, a2]
    · have a1 : ¬ s.off + n < s.off + i + (0 + 1) := by omega
      have a3 : ¬ i = n := by omega
      have a4 : s.off + i + (0 + 1) + (s.off + n - (s.off + i + (0 + 1))) = s.off + n := by
        omega
      simp only [hn, a1, a3, a4, if_true, if_false]
  · have a3 : ¬ i = n := by omega
    simp only [hn, a3, if_false]

/-- On a slice that lies in its array, the add loop gives the slice whose
elements are those of the loop on values. -/
theorem slices_addMapValueLoop_read (growth : Nat → Nat) (H : PairHeap) (base : PairSlice)
    (key value : GoString) (hh : H.holds base) (rest : Headers) :
    ∀ (i : Nat), i + rest.length = base.len →
      (Slices.addMapValueLoop growth H base key value i rest).1.read
          (Slices.addMapValueLoop growth H base key value i rest).2
        = addMapValueLoop (H.read base) key value i rest := by
  induction rest with
  | nil =>
    intro i _
    exact read_appendValues growth H base _ hh
  | cons x rest ih =>
    intro i hi
    have hlt : i < base.len := by simp only [List.length_cons] at hi; omega
    by_cases hx : x.1 = key
    · simp only [Slices.addMapValueLoop, addMapValueLoop, hx, if_true]
      exact read_writeAt H base i _ hh hlt
    · simp only [Slices.addMapValueLoop, addMapValueLoop, hx, if_false]
      exact ih (i + 1) (by simp only [List.length_cons] at hi; omega)

theorem slices_replaceMapValueLoop_read (growth : Nat → Nat) (H : PairHeap)
    (base : PairSlice) (key value : GoString) (hh : H.holds base) (rest : Headers) :
    ∀ (i : Nat), i + rest.length = base.len →
      (Slices.replaceMapValueLoop growth H base key value i rest).1.read
          (Slices.replaceMapValueLoop growth H base key value i rest).2
        = replaceMapValueLoop (H.read base) key value i rest := by
  induction rest with
  | nil =>
    intro i _
    exact read_appendValues growth H base _ hh
  | cons x rest ih =>
    intro i hi
    have hlt : i < base.len := by simp only [List.length_cons] at hi; omega
    by_cases hx : x.1 = key
    · simp only [Slices.replaceMapValueLoop, replaceMapValueLoop, hx, if_true]
      exact read_writeAt H base i _ hh hlt
    · simp only [Slices.replaceMapValueLoop, replaceMapValueLoop, hx, if_false]
      exact ih (i + 1) (by simp only [List.length_cons] at hi; omega)

theorem slices_removeHeaderMapValueLoop_read (growth : Nat → Nat) (H : PairHeap)
    (base : PairSlice) (key : GoString) (hh : H.holds base) (rest : Headers) :
    ∀ (i : Nat), i + rest.length = base.len →
      (Slices.removeHeaderMapValueLoop growth H base key i rest).1.read
          (Slices.removeHeaderMapValueLoop growth H base key i rest).2
        = removeHeaderMapValueLoop (H.read base) key i rest := by
  have hlen := read_length H base hh
  induction rest with
  | nil => intro i _; rfl
  | cons x rest ih =>
    intro i hi
    have hlt : i < base.len := by simp only [List.length_cons] at hi; omega
    by_cases hx : x.1 = key
    · by_cases hlast : (base.len : Int) - 1 = (i : Int)
      · have hlast2 : ((H.read base).length : Int) - 1 = (i : Int) := by rw [hlen]; exact hlast
        simp only [Slices.removeHeaderMapValueLoop, removeHeaderMapValueLoop, hx, hlast,
          hlast2, if_true]
        exact read_upTo H base i (Nat.le_of_lt hlt)
      · have hlast2 : ¬ ((H.read base).length : Int) - 1 = (i : Int) := by
          rw [hlen]; exact hlast
        simp only [Slices.removeHeaderMapValueLoop, removeHeaderMapValueLoop, hx, hlast,
          hlast2, if_true, if_false]
        have hup : H.holds (base.upTo i) := by
          obtain ⟨h1, h2⟩ := hh
          exact ⟨by simp only [PairSlice.upTo]; omega, by simpa only [PairSlice.upTo] using h2⟩
        rw [read_appendValues growth H (base.upTo i) _ hup,
          read_upTo H base i (Nat.le_of_lt hlt), read_startingAt]
    · simp only [Slices.removeHeaderMapValueLoop, removeHeaderMapValueLoop, hx, if_false]
      exact ih (i + 1) (by simp only [List.length_cons] at hi; omega)

/-- On a slice that lies in its array, a header-map mutation leaves the slice
holding what the mutation makes of the value of the map. -/
theorem onSlice_read (op : HeaderMutation) (growth : Nat → Nat) (H : PairHeap)
    (base : PairSlice) (hh : H.holds base) :
    (op.onSlice growth H base).1.read (op.onSlice growth H base).2 = op.onMap (H.read base) := by
  have hlen := read_length H base hh
  cases op with
  | add key value =>
    exact slices_addMapValueLoop_read growth H base key value hh _ 0 (by omega)
  | replace key value =>
    exact slices_replaceMapValueLoop_read growth H base key value hh _ 0 (by omega)
  | remove key =>
    exact slices_removeHeaderMapValueLoop_read growth H base key hh _ 0 (by omega)

/-! ### Map codec -/

theorem bytes_take_append (a b : Bytes) : (a ++ b).take a.length = a := by
  induction a with
  | nil => simp
  | cons x a ih => simp [List.take, ih]

theorem bytes_drop_append (a b : Bytes) : (a ++ b).drop a.length = b := by
  induction a with
  | nil => simp
  | cons x a ih => simp [List.drop, ih]

/-- The key and value lengths of the pairs, as the table holds them. -/
theorem readTable_lengthTable (F : LengthField) (p : Headers) (data : Bytes) :
    readTable F p.length (lengthTable F p ++ data)
      = .ok (p.map (fun kv => (kv.1.length, kv.2.length)), data) := by
  induction p with
  | nil => simp [readTable, lengthTable]
  | cons kv rest ih =>
    simp only [List.length_cons, readTable, lengthTable, List.append_assoc, F.get_put, ih,
      List.map_cons]

/-- Cutting the pair bytes of `p` by the lengths of `p` gives `p` back. -/
theorem readPairs_pairBytes (p : Headers) :
    readPairs (p.map (fun kv => (kv.1.length, kv.2.length))) (pairBytes p) = .ok p := by
  induction p with
  | nil => simp [readPairs, pairBytes]
  | cons kv rest ih =>
    have hlen : (pairBytes (kv :: rest)).length
        = kv.1.length + kv.2.length + (pairBytes rest).length := by
      simp [pairBytes, List.length_append]
      omega
    have hnlt : ¬ ((pairBytes (kv :: rest)).length < kv.1.length + kv.2.length) := by
      omega
    have hdata : (pairBytes (kv :: rest)).drop (kv.1.length + kv.2.length) = pairBytes rest := by
      have hl : (kv.1 ++ kv.2).length = kv.1.length + kv.2.length := List.length_append _ _
      simp only [pairBytes]
      rw [← hl]
      exact bytes_drop_append _ _
    have htk : (pairBytes (kv :: rest)).take kv.1.length = kv.1 := by
      simp only [pairBytes, List.append_assoc]
      exact bytes_take_append _ _
    have hdk : (pairBytes (kv :: rest)).drop kv.1.length = kv.2 ++ pairBytes rest := by
      simp only [pairBytes, List.append_assoc]
      exact bytes_drop_append _ _
    have htv : ((pairBytes (kv :: rest)).drop kv.1.length).take kv.2.length = kv.2 := by
      rw [hdk]
      exact bytes_take_append _ _
    simp only [List.map_cons, readPairs, hnlt, if_false, hdata, ih, htk, htv]

/-- The codec round trip, for every field encoding and every pair sequence. -/
theorem deserializeWith_serializeWith (F : LengthField) (p : Headers) :
    deserializeWith F (serializeWith F p) = .ok p := by
  simp only [deserializeWith, serializeWith, List.append_assoc, F.get_put,
    readTable_lengthTable, readPairs_pairBytes]

theorem deserialize_serialize (p : Headers) : DeserializeMap (SerializeMap p) = .ok p :=
  deserializeWith_serializeWith unaryField p

theorem serializeMap_length_pos (p : Headers) : (SerializeMap p).length ≠ 0 := by
  simp [SerializeMap, serializeWith, unaryField]

/-! ### Example filter -/

theorem foldl_resMapInsert_absent (k : GoString) (hs : Headers) :
    ∀ (m : GoString → Option GoString), (∀ p ∈ hs, p.1 ≠ k) →
      (hs.foldl resMapInsert m) k = m k := by
  induction hs with
  | nil => intro m _; rfl
  | cons x hs ih =>
    intro m habs
    have hx : x.1 ≠ k := habs x (List.mem_cons_self x hs)
    have hrest : ∀ p ∈ hs, p.1 ≠ k := fun p hp => habs p (List.mem_cons_of_mem x hp)
    rw [List.foldl_cons, ih _ hrest]
    simp [resMapInsert, Ne.symm hx]

theorem resMapOf_absent (k : GoString) (hs : Headers) (habs : ∀ p ∈ hs, p.1 ≠ k) :
    resMapOf hs k = none :=
  foldl_resMapInsert_absent k hs _ habs

/-- The map built from the headers holds, for a key, the value of the last pair
with that key. -/
theorem resMapOf_last (k v : GoString) (pre post : Headers) (hpost : ∀ p ∈ post, p.1 ≠ k) :
    resMapOf (pre ++ (k, v) :: post) k = some v := by
  unfold resMapOf
  rw [List.foldl_append, List.foldl_cons, foldl_resMapInsert_absent k post _ hpost]
  simp [resMapInsert]

/-! ## Buffer writes -/

/-- C1 (as the code has it): on a registered stream and either body buffer `b`,
set-bytes with `start = len(b)` returns OK and leaves the selected buffer equal to
`b ++ d`, for every `maxSize` when `b` is non-empty and for every `maxSize >= 0`
when `b` is empty; nothing else in the store changes. -/
theorem setBufferBytes_at_end_appends (h : httpHostEmulator) (active : Nat)
    (s : httpStreamState) (bt : BufferType) (maxSize : Int) (d : Bytes)
    (hs : h.httpStreams active = some s) (hbt : bt.isBody = true)
    (hm : s.body bt ≠ [] ∨ 0 ≤ maxSize) :
    httpHostEmulatorProxySetBufferBytes h active bt ((s.body bt).length : Int) maxSize d
      = .ok (.OK, h.store active (s.withBody bt (s.body bt ++ d))) := by
  rw [setBufferBytes_eq h active s bt _ maxSize d hs hbt]
  generalize s.body bt = b at hm
  cases b with
  | nil =>
    have h0 : 0 ≤ maxSize := by
      rcases hm with hm | hm
      · exact absurd rfl hm
      · exact hm
    by_cases hz : maxSize = 0
    · simp [setBufferBytesOn, hz]
    · simp [setBufferBytesOn, hz, h0]
  | cons x xs =>
    have hne : ((xs.length : Int) + 1 = 0) ↔ False := by
      constructor
      · intro hx; omega
      · intro hx; exact hx.elim
    simp [setBufferBytesOn, hne]

/-- C1 as stated fails: on a stream whose request body is empty, set-bytes with
`start = len(b) = 0` and `maxSize = -1` returns BadArgument and the buffer stays
empty instead of becoming `[] ++ [1]`. -/
theorem setBufferBytes_at_end_negative_maxSize :
    (singleStream (streamWithBodies [] [])).httpStreams 1 = some (streamWithBodies [] [])
    ∧ statusOf (httpHostEmulatorProxySetBufferBytes (singleStream (streamWithBodies [] [])) 1
        .HttpRequestBody (((streamWithBodies [] []).requestBody.length : Nat) : Int) (-1) [1])
      = some .BadArgument
    ∧ recordAfter (httpHostEmulatorProxySetBufferBytes (singleStream (streamWithBodies [] [])) 1
        .HttpRequestBody (((streamWithBodies [] []).requestBody.length : Nat) : Int) (-1) [1]) 1
      = some (streamWithBodies [] []) := by
  decide

/-- Witness for C1: appending `[3]` to the response body `[1, 2]` with `maxSize = -5`. -/
theorem setBufferBytes_at_end_appends_witness :
    httpHostEmulatorProxySetBufferBytes (singleStream (streamWithBodies [] [1, 2])) 1
        .HttpResponseBody (((streamWithBodies [] [1, 2]).body .HttpResponseBody).length : Int)
        (-5) [3]
      = .ok (.OK, (singleStream (streamWithBodies [] [1, 2])).store 1
          ((streamWithBodies [] [1, 2]).withBody .HttpResponseBody
            ((streamWithBodies [] [1, 2]).body .HttpResponseBody ++ [3]))) :=
  setBufferBytes_at_end_appends (singleStream (streamWithBodies [] [1, 2])) 1
    (streamWithBodies [] [1, 2]) .HttpResponseBody (-5) [3] (by decide) (by decide)
    (Or.inl (by decide))

/-- C2: on a registered stream and either body buffer `b`, set-bytes with
`start = 0` and `maxSize = 0` returns OK and leaves the selected buffer equal to
`d ++ b`; nothing else in the store changes. -/
theorem setBufferBytes_zero_zero_prepends (h : httpHostEmulator) (active : Nat)
    (s : httpStreamState) (bt : BufferType) (d : Bytes)
    (hs : h.httpStreams active = some s) (hbt : bt.isBody = true) :
    httpHostEmulatorProxySetBufferBytes h active bt 0 0 d
      = .ok (.OK, h.store active (s.withBody bt (d ++ s.body bt))) := by
  rw [setBufferBytes_eq h active s bt 0 0 d hs hbt]
  simp [setBufferBytesOn]

/-- Witness for C2: prepending `[9]` to the request body `[1, 2]`. -/
theorem setBufferBytes_zero_zero_prepends_witness :
    httpHostEmulatorProxySetBufferBytes (singleStream (streamWithBodies [1, 2] [])) 1
        .HttpRequestBody 0 0 [9]
      = .ok (.OK, (singleStream (streamWithBodies [1, 2] [])).store 1
          ((streamWithBodies [1, 2] []).withBody .HttpRequestBody
            ([9] ++ (streamWithBodies [1, 2] []).body .HttpRequestBody))) :=
  setBufferBytes_zero_zero_prepends (singleStream (streamWithBodies [1, 2] [])) 1
    (streamWithBodies [1, 2] []) .HttpRequestBody [9] (by decide) (by decide)

/-- C3: on a registered stream and either body buffer `b`, set-bytes with
`start = 0` and `maxSize = M >= len(b)` returns OK and leaves the selected buffer
equal to exactly `d`; nothing else in the store changes. -/
theorem setBufferBytes_zero_large_replaces (h : httpHostEmulator) (active : Nat)
    (s : httpStreamState) (bt : BufferType) (M : Int) (d : Bytes)
    (hs : h.httpStreams active = some s) (hbt : bt.isBody = true)
    (hM : ((s.body bt).length : Int) ≤ M) :
    httpHostEmulatorProxySetBufferBytes h active bt 0 M d
      = .ok (.OK, h.store active (s.withBody bt d)) := by
  rw [setBufferBytes_eq h active s bt 0 M d hs hbt]
  by_cases hz : M = 0
  · subst hz
    have hb : s.body bt = [] := by
      have : (s.body bt).length = 0 := by omega
      exact List.length_eq_zero.mp this
    simp [setBufferBytesOn, hb]
  · simp [setBufferBytesOn, hz, hM]

/-- Witness for C3: replacing the request body `[1, 2]` by `[9]` with `maxSize = 2`. -/
theorem setBufferBytes_zero_large_replaces_witness :
    httpHostEmulatorProxySetBufferBytes (singleStream (streamWithBodies [1, 2] [])) 1
        .HttpRequestBody 0 2 [9]
      = .ok (.OK, (singleStream (streamWithBodies [1, 2] [])).store 1
          ((streamWithBodies [1, 2] []).withBody .HttpRequestBody [9])) :=
  setBufferBytes_zero_large_replaces (singleStream (streamWithBodies [1, 2] [])) 1
    (streamWithBodies [1, 2] []) .HttpRequestBody 2 [9] (by decide) (by decide) (by decide)

/-- C4: on a registered stream and either body buffer `b`, set-bytes returns
BadArgument and leaves the whole store (so both body buffers of the stream)
unchanged whenever `0 < start < len(b)`, for any `maxSize`, and whenever
`start = 0` and `0 < maxSize < len(b)`. -/
theorem setBufferBytes_partial_overwrite_rejected (h : httpHostEmulator) (active : Nat)
    (s : httpStreamState) (bt : BufferType) (start maxSize : Int) (d : Bytes)
    (hs : h.httpStreams active = some s) (hbt : bt.isBody = true)
    (hr : (0 < start ∧ start < ((s.body bt).length : Int))
      ∨ (start = 0 ∧ 0 < maxSize ∧ maxSize < ((s.body bt).length : Int))) :
    httpHostEmulatorProxySetBufferBytes h active bt start maxSize d = .ok (.BadArgument, h) := by
  rw [setBufferBytes_eq h active s bt start maxSize d hs hbt]
  have hbad : setBufferBytesOn (s.body bt) start maxSize d = (.BadArgument, s.body bt) := by
    rcases hr with ⟨h1, h2⟩ | ⟨h1, h2, h3⟩
    · have hne : start ≠ 0 := by omega
      have hlt : ¬ (((s.body bt).length : Int) ≤ start) := by omega
      simp [setBufferBytesOn, hne, hlt]
    · have hne : maxSize ≠ 0 := by omega
      have hlt : ¬ (((s.body bt).length : Int) ≤ maxSize) := by omega
      simp [setBufferBytesOn, h1, hne, hlt]
  rw [hbad]
  simp only [withBody_body, store_same h active s hs]

/-- Witness for C4: an internal start, 1, into the response body `[1, 2, 3]`. -/
theorem setBufferBytes_partial_overwrite_rejected_witness :
    httpHostEmulatorProxySetBufferBytes (singleStream (streamWithBodies [] [1, 2, 3])) 1
        .HttpResponseBody 1 7 [9]
      = .ok (.BadArgument, singleStream (streamWithBodies [] [1, 2, 3])) :=
  setBufferBytes_partial_overwrite_rejected (singleStream (streamWithBodies [] [1, 2, 3])) 1
    (streamWithBodies [] [1, 2, 3]) .HttpResponseBody 1 7 [9] (by decide) (by decide)
    (Or.inl (by decide))

/-! ## Buffer reads -/

/-- C5 (the code at two inputs): with the response-body selector the call reads
`requestBody`. On a record with empty request body and response body `[7]` it
returns NotFound although the response body is not empty; on a record with
request body `[1, 2]` and empty response body it returns OK with the range
`(0, 2)` of the request body although the response body is empty. -/
theorem getBufferBytes_response_reads_requestBody :
    (singleStream (streamWithBodies [] [7])).httpStreams 1 = some (streamWithBodies [] [7])
    ∧ httpHostEmulatorProxyGetBufferBytes (singleStream (streamWithBodies [] [7])) 1
        .HttpResponseBody 0 1 = .ok (.NotFound, none)
    ∧ (singleStream (streamWithBodies [1, 2] [])).httpStreams 1
        = some (streamWithBodies [1, 2] [])
    ∧ httpHostEmulatorProxyGetBufferBytes (singleStream (streamWithBodies [1, 2] [])) 1
        .HttpResponseBody 0 2 = .ok (.OK, some ⟨0, 2⟩) := by
  decide

/-- C6: with the request-body selector on a registered stream with request body
`b`, and `start >= 0`, `maxSize >= 0`: the call returns NotFound if `b` is empty;
otherwise BadArgument if `start >= len(b)`; otherwise OK with the range that
begins at `start` and has length `min(maxSize, len(b) - start)`, whose bytes are
the slice `b[start : start + min(maxSize, len(b) - start)]`, exactly that many bytes. -/
theorem getBufferBytes_request_contract (h : httpHostEmulator) (active : Nat)
    (s : httpStreamState) (start maxSize : Int)
    (hs : h.httpStreams active = some s) (h0 : 0 ≤ start) (hm : 0 ≤ maxSize) :
    (s.requestBody = [] →
      httpHostEmulatorProxyGetBufferBytes h active .HttpRequestBody start maxSize
        = .ok (.NotFound, none))
    ∧ (s.requestBody ≠ [] → (s.requestBody.length : Int) ≤ start →
      httpHostEmulatorProxyGetBufferBytes h active .HttpRequestBody start maxSize
        = .ok (.BadArgument, none))
    ∧ (s.requestBody ≠ [] → start < (s.requestBody.length : Int) →
      httpHostEmulatorProxyGetBufferBytes h active .HttpRequestBody start maxSize
        = .ok (.OK, some ⟨start.toNat, min maxSize ((s.requestBody.length : Int) - start)⟩)
      ∧ rangeBytes s.requestBody
          ⟨start.toNat, min maxSize ((s.requestBody.length : Int) - start)⟩
        = (s.requestBody.take
            (start.toNat + (min maxSize ((s.requestBody.length : Int) - start)).toNat)).drop
            start.toNat
      ∧ ((rangeBytes s.requestBody
          ⟨start.toNat, min maxSize ((s.requestBody.length : Int) - start)⟩).length : Int)
        = min maxSize ((s.requestBody.length : Int) - start)) := by
  simp only [httpHostEmulatorProxyGetBufferBytes, hs]
  generalize s.requestBody = b
  refine ⟨?_, ?_, ?_⟩
  · intro hb
    simp [getBufferBytesFrom, hb]
  · intro hb hle
    have hlen : b.length ≠ 0 := fun hz => hb (List.length_eq_zero.mp hz)
    simp [getBufferBytesFrom, hlen, hle]
  · intro hb hlt
    have hlen : b.length ≠ 0 := fun hz => hb (List.length_eq_zero.mp hz)
    have hnle : ¬ ((b.length : Int) ≤ start) := by omega
    have hneg : ¬ (start < 0) := by omega
    refine ⟨?_, ?_, ?_⟩
    · by_cases hgt : (b.length : Int) - start < maxSize
      · have hmin : min maxSize ((b.length : Int) - start) = (b.length : Int) - start := by
          omega
        simp [getBufferBytesFrom, hlen, hnle, hneg, hgt, hmin]
      · have hmin : min maxSize ((b.length : Int) - start) = maxSize := by
          omega
        simp [getBufferBytesFrom, hlen, hnle, hneg, hgt, hmin]
    · simp only [rangeBytes, List.drop_take, Nat.add_sub_cancel_left]
    · simp only [rangeBytes, List.length_take, List.length_drop]
      omega

/-- Witness for C6: reading from offset 1 of the request body `[1, 2, 3]` with `maxSize = 5`. -/
theorem getBufferBytes_request_contract_witness :
    ((streamWithBodies [1, 2, 3] []).requestBody = [] →
      httpHostEmulatorProxyGetBufferBytes (singleStream (streamWithBodies [1, 2, 3] [])) 1
        .HttpRequestBody 1 5 = .ok (.NotFound, none))
    ∧ ((streamWithBodies [1, 2, 3] []).requestBody ≠ [] →
      (((streamWithBodies [1, 2, 3] []).requestBody.length : Nat) : Int) ≤ 1 →
      httpHostEmulatorProxyGetBufferBytes (singleStream (streamWithBodies [1, 2, 3] [])) 1
        .HttpRequestBody 1 5 = .ok (.BadArgument, none))
    ∧ ((streamWithBodies [1, 2, 3] []).requestBody ≠ [] →
      1 < (((streamWithBodies [1, 2, 3] []).requestBody.length : Nat) : Int) →
      httpHostEmulatorProxyGetBufferBytes (singleStream (streamWithBodies [1, 2, 3] [])) 1
        .HttpRequestBody 1 5
        = .ok (.OK, some ⟨(1 : Int).toNat,
            min 5 ((((streamWithBodies [1, 2, 3] []).requestBody.length : Nat) : Int) - 1)⟩)
      ∧ rangeBytes (streamWithBodies [1, 2, 3] []).requestBody
          ⟨(1 : Int).toNat,
            min 5 ((((streamWithBodies [1, 2, 3] []).requestBody.length : Nat) : Int) - 1)⟩
        = ((streamWithBodies [1, 2, 3] []).requestBody.take
            ((1 : Int).toNat
              + (min 5 ((((streamWithBodies [1, 2, 3] []).requestBody.length : Nat) : Int)
                  - 1)).toNat)).drop (1 : Int).toNat
      ∧ ((rangeBytes (streamWithBodies [1, 2, 3] []).requestBody
          ⟨(1 : Int).toNat,
            min 5 ((((streamWithBodies [1, 2, 3] []).requestBody.length : Nat) : Int)
              - 1)⟩).length : Int)
        = min 5 ((((streamWithBodies [1, 2, 3] []).requestBody.length : Nat) : Int) - 1)) :=
  getBufferBytes_request_contract (singleStream (streamWithBodies [1, 2, 3] [])) 1
    (streamWithBodies [1, 2, 3] []) 1 5 (by decide) (by decide) (by decide)

/-! ## Header maps -/

/-- C7 (the code at the failing input): on the request headers `[("a", "")]`,
get with key `"a"` finds the pair and then faults on `&value[0]`, the value
being empty, instead of returning OK with the empty value and length 0. -/
theorem getHeaderMapValue_empty_value_faults :
    (singleStream (streamWithRequestHeaders [([97], [])])).httpStreams 1
      = some (streamWithRequestHeaders [([97], [])])
    ∧ httpHostEmulatorProxyGetHeaderMapValue
        (singleStream (streamWithRequestHeaders [([97], [])])) 1 .HttpRequestHeaders [97]
      = .error .indexOutOfRange := by
  decide

/-- C8: on a registered stream and any of the four maps `m`, header add returns
OK and stores `addMapValue m k v` in that map only. If some pair of `m` has key
`k`, then `m` splits at its first such pair as `pre ++ (k, old) :: post`, the
result is `pre ++ (k, old ++ v) :: post`, and it has the length of `m`; if no
pair has key `k`, the result is `m ++ [(k, v)]`. -/
theorem addHeaderMapValue_contract (h : httpHostEmulator) (active : Nat)
    (s : httpStreamState) (mt : MapType) (k v : GoString)
    (hs : h.httpStreams active = some s) (hmt : mt.isStreamMap = true) :
    ProxyAddHeaderMapValue h active mt k v
      = .ok (.OK, h.store active (s.withHeaderMap mt (addMapValue (s.headerMap mt) k v)))
    ∧ ((∃ p ∈ s.headerMap mt, p.1 = k) →
        ∃ pre old post, s.headerMap mt = pre ++ (k, old) :: post
          ∧ (∀ p ∈ pre, p.1 ≠ k)
          ∧ addMapValue (s.headerMap mt) k v = pre ++ (k, old ++ v) :: post
          ∧ (addMapValue (s.headerMap mt) k v).length = (s.headerMap mt).length)
    ∧ ((∀ p ∈ s.headerMap mt, p.1 ≠ k) →
        addMapValue (s.headerMap mt) k v = s.headerMap mt ++ [(k, v)]) := by
  refine ⟨?_, ?_, ?_⟩
  · cases mt with
    | other c => simp [MapType.isStreamMap] at hmt
    | _ =>
      simp [ProxyAddHeaderMapValue, hs, httpStreamState.headerMap,
        httpStreamState.withHeaderMap]
  · intro hex
    obtain ⟨pre, old, post, hm, hpre⟩ := first_key_split k (s.headerMap mt) hex
    have hloop := addMapValueLoop_found k v old pre [] post hpre
    have hres : addMapValue (s.headerMap mt) k v = pre ++ (k, old ++ v) :: post := by
      rw [hm]
      simpa [addMapValue] using hloop
    refine ⟨pre, old, post, hm, hpre, hres, ?_⟩
    rw [hres, hm]
    simp
  · intro habs
    exact addMapValueLoop_absent (s.headerMap mt) k v (s.headerMap mt) 0 habs

/-- Witness for C8: adding `"z"` under key `"b"` to the request headers
`[("a", "x"), ("b", "y"), ("b", "w")]`. -/
theorem addHeaderMapValue_contract_witness :
    (singleStream (streamWithRequestHeaders
        [([97], [120]), ([98], [121]), ([98], [119])])).httpStreams 1
      = some (streamWithRequestHeaders [([97], [120]), ([98], [121]), ([98], [119])])
    ∧ ProxyAddHeaderMapValue
        (singleStream (streamWithRequestHeaders [([97], [120]), ([98], [121]), ([98], [119])]))
        1 .HttpRequestHeaders [98] [122]
      = .ok (.OK,
          (singleStream (streamWithRequestHeaders
            [([97], [120]), ([98], [121]), ([98], [119])])).store 1
            ((streamWithRequestHeaders
              [([97], [120]), ([98], [121]), ([98], [119])]).withHeaderMap .HttpRequestHeaders
              (addMapValue
                ((streamWithRequestHeaders
                  [([97], [120]), ([98], [121]), ([98], [119])]).headerMap .HttpRequestHeaders)
                [98] [122])))
    ∧ addMapValue
        ((streamWithRequestHeaders
          [([97], [120]), ([98], [121]), ([98], [119])]).headerMap .HttpRequestHeaders)
        [98] [122]
      = [([97], [120]), ([98], [121, 122]), ([98], [119])] :=
  ⟨by decide,
    (addHeaderMapValue_contract
      (singleStream (streamWithRequestHeaders [([97], [120]), ([98], [121]), ([98], [119])]))
      1 (streamWithRequestHeaders [([97], [120]), ([98], [121]), ([98], [119])])
      .HttpRequestHeaders [98] [122] (by decide) (by decide)).1,
    by decide⟩

/-- C9: on a registered stream and any of the four maps `m`, header replace
returns OK and stores `replaceMapValue m k v` in that map only. If some pair of
`m` has key `k`, then `m` splits at its first such pair as
`pre ++ (k, old) :: post`, the result is `pre ++ (k, v) :: post`, and it has the
length of `m`; if no pair has key `k`, the result is `m ++ [(k, v)]`. -/
theorem replaceHeaderMapValue_contract (h : httpHostEmulator) (active : Nat)
    (s : httpStreamState) (mt : MapType) (k v : GoString)
    (hs : h.httpStreams active = some s) (hmt : mt.isStreamMap = true) :
    ProxyReplaceHeaderMapValue h active mt k v
      = .ok (.OK, h.store active (s.withHeaderMap mt (replaceMapValue (s.headerMap mt) k v)))
    ∧ ((∃ p ∈ s.headerMap mt, p.1 = k) →
        ∃ pre old post, s.headerMap mt = pre ++ (k, old) :: post
          ∧ (∀ p ∈ pre, p.1 ≠ k)
          ∧ replaceMapValue (s.headerMap mt) k v = pre ++ (k, v) :: post
          ∧ (replaceMapValue (s.headerMap mt) k v).length = (s.headerMap mt).length)
    ∧ ((∀ p ∈ s.headerMap mt, p.1 ≠ k) →
        replaceMapValue (s.headerMap mt) k v = s.headerMap mt ++ [(k, v)]) := by
  refine ⟨?_, ?_, ?_⟩
  · cases mt with
    | other c => simp [MapType.isStreamMap] at hmt
    | _ =>
      simp [ProxyReplaceHeaderMapValue, hs, httpStreamState.headerMap,
        httpStreamState.withHeaderMap]
  · intro hex
    obtain ⟨pre, old, post, hm, hpre⟩ := first_key_split k (s.headerMap mt) hex
    have hloop := replaceMapValueLoop_found k v old pre [] post hpre
    have hres : replaceMapValue (s.headerMap mt) k v = pre ++ (k, v) :: post := by
      rw [hm]
      simpa [replaceMapValue] using hloop
    refine ⟨pre, old, post, hm, hpre, hres, ?_⟩
    rw [hres, hm]
    simp
  · intro habs
    exact replaceMapValueLoop_absent (s.headerMap mt) k v (s.headerMap mt) 0 habs

/-- Witness for C9: replacing the value of key `"b"` by `"z"` in the request
headers `[("a", "x"), ("b", "y"), ("b", "w")]`. -/
theorem replaceHeaderMapValue_contract_witness :
    (singleStream (streamWithRequestHeaders
        [([97], [120]), ([98], [121]), ([98], [119])])).httpStreams 1
      = some (streamWithRequestHeaders [([97], [120]), ([98], [121]), ([98], [119])])
    ∧ ProxyReplaceHeaderMapValue
        (singleStream (streamWithRequestHeaders [([97], [120]), ([98], [121]), ([98], [119])]))
        1 .HttpRequestHeaders [98] [122]
      = .ok (.OK,
          (singleStream (streamWithRequestHeaders
            [([97], [120]), ([98], [121]), ([98], [119])])).store 1
            ((streamWithRequestHeaders
              [([97], [120]), ([98], [121]), ([98], [119])]).withHeaderMap .HttpRequestHeaders
              (replaceMapValue
                ((streamWithRequestHeaders
                  [([97], [120]), ([98], [121]), ([98], [119])]).headerMap .HttpRequestHeaders)
                [98] [122])))
    ∧ replaceMapValue
        ((streamWithRequestHeaders
          [([97], [120]), ([98], [121]), ([98], [119])]).headerMap .HttpRequestHeaders)
        [98] [122]
      = [([97], [120]), ([98], [122]), ([98], [119])] :=
  ⟨by decide,
    (replaceHeaderMapValue_contract
      (singleStream (streamWithRequestHeaders [([97], [120]), ([98], [121]), ([98], [119])]))
      1 (streamWithRequestHeaders [([97], [120]), ([98], [121]), ([98], [119])])
      .HttpRequestHeaders [98] [122] (by decide) (by decide)).1,
    by decide⟩

/-- C10 (as the code has it): on a registered stream and any of the four maps
`m`, when at most one pair of `m` has key `k`, header remove with key `k`
followed by header get with key `k` on the same map returns NotFound. -/
theorem removeThenGet_notFound (h : httpHostEmulator) (active : Nat)
    (s : httpStreamState) (mt : MapType) (k : GoString)
    (hs : h.httpStreams active = some s) (hmt : mt.isStreamMap = true)
    (hc : keyCount (s.headerMap mt) k ≤ 1) :
    removeThenGet h active mt k = .ok (.NotFound, none) := by
  unfold removeThenGet
  rw [removeHeaderMapValue_call_eq h active s mt k hs hmt]
  simp only []
  rw [getHeaderMapValue_eq _ active _ mt k (store_lookup_self h active _) hmt,
    withHeaderMap_headerMap s mt _ hmt, removeHeaderMapValue_eq_eraseP]
  exact (getHeaderValueLoop_notFound_iff k _).mpr (eraseP_key_absent k _ hc)

/-- C10 as stated fails: on the request headers `[("k", "a"), ("k", "b")]`,
remove with key `"k"` erases the first pair only, and the following get with
key `"k"` returns OK with the value `"b"` of the second. -/
theorem removeThenGet_duplicate_key :
    (singleStream (streamWithRequestHeaders [([107], [97]), ([107], [98])])).httpStreams 1
      = some (streamWithRequestHeaders [([107], [97]), ([107], [98])])
    ∧ statusOf (ProxyRemoveHeaderMapValue
        (singleStream (streamWithRequestHeaders [([107], [97]), ([107], [98])])) 1
        .HttpRequestHeaders [107]) = some .OK
    ∧ recordAfter (ProxyRemoveHeaderMapValue
        (singleStream (streamWithRequestHeaders [([107], [97]), ([107], [98])])) 1
        .HttpRequestHeaders [107]) 1 = some (streamWithRequestHeaders [([107], [98])])
    ∧ removeThenGet (singleStream (streamWithRequestHeaders [([107], [97]), ([107], [98])])) 1
        .HttpRequestHeaders [107] = .ok (.OK, some ⟨[98], 1⟩) := by
  decide

/-- Witness for C10: removing then getting key `"k"` on the request headers
`[("a", "x"), ("k", "b")]`. -/
theorem removeThenGet_notFound_witness :
    keyCount ((streamWithRequestHeaders [([97], [120]), ([107], [98])]).headerMap
        .HttpRequestHeaders) [107] ≤ 1
    ∧ removeThenGet (singleStream (streamWithRequestHeaders [([97], [120]), ([107], [98])])) 1
        .HttpRequestHeaders [107] = .ok (.NotFound, none) :=
  ⟨by decide,
    removeThenGet_notFound
      (singleStream (streamWithRequestHeaders [([97], [120]), ([107], [98])])) 1
      (streamWithRequestHeaders [([97], [120]), ([107], [98])]) .HttpRequestHeaders [107]
      (by decide) (by decide) (by decide)⟩

/-! ## Lifecycle driver -/

theorem setAction_registered (h : httpHostEmulator) (id : Nat) (s : httpStreamState)
    (a : Action) (hs : h.httpStreams id = some s) :
    h.setAction id a = h.store id { s with action := a } := by
  simp [httpHostEmulator.setAction, hs]

/-- C11 (as the code has it): on a registered stream with request body `b`,
`CallOnRequestBody` with chunk `c` and flag `eos` runs the request-body callback
on a store in which the request body of the stream is `b ++ c`, passing it the
length of the chunk, `len(c)`, and `eos`; it returns the action of the callback.
The traced extension records exactly that one invocation. -/
theorem callOnRequestBody_passes_chunk_length {σ : Type} (ext : Extension σ)
    (tr : List CallbackEvent) (st st2 : σ) (h h2 : httpHostEmulator) (id : Nat)
    (cs : httpStreamState) (c : Bytes) (eos : Bool) (a : Action)
    (hcs : h.httpStreams id = some cs)
    (hf : ext.ProxyOnRequestBody id (c.length : Int) eos
        (st, h.store id { cs with requestBody := cs.requestBody ++ c }) = .ok (a, (st2, h2))) :
    (h.store id { cs with requestBody := cs.requestBody ++ c }).httpStreams id
      = some { cs with requestBody := cs.requestBody ++ c }
    ∧ CallOnRequestBody ext (st, h) id c eos = .ok (a, (st2, h2.setAction id a))
    ∧ CallOnRequestBody (traced ext) ((tr, st), h) id c eos
      = .ok (a, ((tr ++ [.requestBody id (c.length : Int) eos], st2), h2.setAction id a)) := by
  refine ⟨store_lookup_self h id _, ?_, ?_⟩
  · simp [CallOnRequestBody, hcs, hf]
  · simp [CallOnRequestBody, traced, recordThen, hcs, hf]

/-- C11 as stated fails: with request body `[1]` accumulated, delivering the
chunk `[2]` with end of stream makes the request body `[1, 2]`, of length 2, and
the request-body callback is invoked with size 1, the length of the chunk. -/
theorem callOnRequestBody_size_is_chunk_length :
    (singleStream (streamWithBodies [1] [])).httpStreams 1 = some (streamWithBodies [1] [])
    ∧ deliveryEvents (CallOnRequestBody (traced (idleExtension .Pause))
        (([], ()), singleStream (streamWithBodies [1] [])) 1 [2] true)
      = some [.requestBody 1 1 true]
    ∧ deliveryRecord (CallOnRequestBody (traced (idleExtension .Pause))
        (([], ()), singleStream (streamWithBodies [1] [])) 1 [2] true) 1
      = some { streamWithBodies [1, 2] [] with action := .Pause } := by
  decide

/-- Witness for C11: the idle extension on a stream with request body `[1]`,
chunk `[2, 3]`. -/
theorem callOnRequestBody_passes_chunk_length_witness :
    CallOnRequestBody (traced (idleExtension .Pause))
        (([], ()), singleStream (streamWithBodies [1] [])) 1 [2, 3] false
      = .ok (.Pause, (([] ++ [.requestBody 1 (([2, 3] : Bytes).length : Int) false], ()),
          ((singleStream (streamWithBodies [1] [])).store 1
            { streamWithBodies [1] [] with
              requestBody := (streamWithBodies [1] []).requestBody ++ [2, 3] }).setAction
            1 .Pause)) :=
  (callOnRequestBody_passes_chunk_length (idleExtension .Pause) [] () ()
    (singleStream (streamWithBodies [1] []))
    ((singleStream (streamWithBodies [1] [])).store 1
      { streamWithBodies [1] [] with
        requestBody := (streamWithBodies [1] []).requestBody ++ [2, 3] })
    1 (streamWithBodies [1] []) [2, 3] false .Pause (by decide) rfl).2.2

/-- C12 (as the code has it): for a stream id present in the store and an
extension whose logging, stream-done and context-delete callbacks return and
change the store only through host calls, `CompleteHttpContext id` returns the
state the three callbacks leave, the driver itself removing and changing
nothing; host calls neither add nor remove a record, so the store still holds a
record for `id` and `GetCurrentHttpStreamAction id` succeeds with its action. -/
theorem completeHttpContext_keeps_record {σ : Type} (ext : Extension σ)
    (w w1 w2 w3 : σ × httpHostEmulator) (id : Nat) (s : httpStreamState)
    (hs : w.2.httpStreams id = some s)
    (hlog : ext.ProxyOnLog id w = .ok w1) (hdone : ext.ProxyOnDone id w1 = .ok w2)
    (hdel : ext.ProxyOnDelete id w2 = .ok w3)
    (clog : HostCalls w.2 w1.2) (cdone : HostCalls w1.2 w2.2) (cdel : HostCalls w2.2 w3.2) :
    CompleteHttpContext ext w id = .ok w3
    ∧ ∃ s3, completionRecord (CompleteHttpContext ext w id) id = some s3
      ∧ completionLookup (CompleteHttpContext ext w id) id = .ok s3.action := by
  have hc : CompleteHttpContext ext w id = .ok w3 := by
    simp [CompleteHttpContext, hlog, hdone, hdel]
  have hsome : (w3.2.httpStreams id).isSome = true := by
    rw [hostCalls_keep_records _ _ cdel, hostCalls_keep_records _ _ cdone,
      hostCalls_keep_records _ _ clog, hs]
    rfl
  obtain ⟨s3, hs3⟩ := Option.isSome_iff_exists.mp hsome
  refine ⟨hc, s3, ?_, ?_⟩
  · simp [hc, completionRecord, hs3]
  · simp [hc, completionLookup, GetCurrentHttpStreamAction, hs3]

/-- C12 as stated fails: after `CompleteHttpContext 1` on a store holding stream
1, with an extension that makes no host call, the store still holds the record
of stream 1, unchanged, and `GetCurrentHttpStreamAction 1` succeeds. -/
theorem completeHttpContext_record_remains :
    (singleStream (streamWithBodies [1] [2])).httpStreams 1 = some (streamWithBodies [1] [2])
    ∧ completionRecord (CompleteHttpContext (idleExtension .Continue)
        ((), singleStream (streamWithBodies [1] [2])) 1) 1 = some (streamWithBodies [1] [2])
    ∧ completionLookup (CompleteHttpContext (idleExtension .Continue)
        ((), singleStream (streamWithBodies [1] [2])) 1) 1 = .ok .Continue := by
  decide

/-- Witness for C12: an extension that removes a request header while logging
and calls `ProxyContinueStream` on stream-done, on a paused stream 1 with request
headers `[("a", "x")]`: after completion the record of stream 1 is there, with
no request header and action Continue. -/
theorem completeHttpContext_keeps_record_witness :
    CompleteHttpContext busyOnCompletion
        ((), singleStream { streamWithRequestHeaders [([97], [120])] with action := .Pause }) 1
      = .ok ((),
          ((singleStream { streamWithRequestHeaders [([97], [120])] with action := .Pause }).store
            1 { streamWithRequestHeaders [] with action := .Pause }).store
            1 (streamWithRequestHeaders []))
    ∧ completionRecord (CompleteHttpContext busyOnCompletion
        ((), singleStream { streamWithRequestHeaders [([97], [120])] with action := .Pause }) 1) 1
      = some (streamWithRequestHeaders [])
    ∧ completionLookup (CompleteHttpContext busyOnCompletion
        ((), singleStream { streamWithRequestHeaders [([97], [120])] with action := .Pause }) 1) 1
      = .ok .Continue :=
  ⟨(completeHttpContext_keeps_record busyOnCompletion
      ((), singleStream { streamWithRequestHeaders [([97], [120])] with action := .Pause })
      ((), (singleStream { streamWithRequestHeaders [([97], [120])] with action := .Pause }).store
        1 { streamWithRequestHeaders [] with action := .Pause })
      ((), ((singleStream
          { streamWithRequestHeaders [([97], [120])] with action := .Pause }).store
        1 { streamWithRequestHeaders [] with action := .Pause }).store
        1 (streamWithRequestHeaders []))
      ((), ((singleStream
          { streamWithRequestHeaders [([97], [120])] with action := .Pause }).store
        1 { streamWithRequestHeaders [] with action := .Pause }).store
        1 (streamWithRequestHeaders []))
      1 { streamWithRequestHeaders [([97], [120])] with action := .Pause }
      (by decide) rfl rfl rfl
      (.call (.removeHeaderMapValue 1 .HttpRequestHeaders [97] .OK rfl) (.done _))
      (.call (.continueStream 1 .OK rfl) (.done _))
      (.done _)).1,
    by decide, by decide⟩

/-- C13: `CompleteHttpContext id` invokes the logging callback on the state it
was given (the driver has not touched the store, so a record present before is
present and unmodified then), the stream-done callback on the state logging
left, and the context-delete callback on the state stream-done left; the traced
extension records exactly these three invocations for `id`, once each, in this
order. -/
theorem completeHttpContext_log_done_delete {σ : Type} (ext : Extension σ)
    (tr : List CallbackEvent) (st : σ) (h : httpHostEmulator)
    (w1 w2 w3 : σ × httpHostEmulator) (id : Nat)
    (hlog : ext.ProxyOnLog id (st, h) = .ok w1) (hdone : ext.ProxyOnDone id w1 = .ok w2)
    (hdel : ext.ProxyOnDelete id w2 = .ok w3) :
    CompleteHttpContext (traced ext) ((tr, st), h) id
      = .ok ((tr ++ [.log id, .done id, .delete id], w3.1), w3.2) := by
  simp [CompleteHttpContext, traced, recordThenUnit, hlog, hdone, hdel]

/-- Witness for C13: the idle extension on a store holding stream 1. -/
theorem completeHttpContext_log_done_delete_witness :
    CompleteHttpContext (traced (idleExtension .Continue))
        (([], ()), singleStream (streamWithBodies [1] [2])) 1
      = .ok (([] ++ [.log 1, .done 1, .delete 1], ()), singleStream (streamWithBodies [1] [2])) :=
  completeHttpContext_log_done_delete (idleExtension .Continue) [] ()
    (singleStream (streamWithBodies [1] [2])) ((), singleStream (streamWithBodies [1] [2]))
    ((), singleStream (streamWithBodies [1] [2])) ((), singleStream (streamWithBodies [1] [2]))
    1 rfl rfl rfl

/-- C14 (as the code has it): on a registered stream, whatever its stored local
response (none or an earlier one), a local-response call whose header bytes
decode returns OK and stores the response of this call, replacing any earlier
one; nothing else in the record changes. -/
theorem proxySendLocalResponse_stores_latest (h : httpHostEmulator) (active : Nat)
    (s : httpStreamState) (statusCode : Nat) (detail : GoString) (body headers : Bytes)
    (grpcStatus : Int) (hs : Headers)
    (hreg : h.httpStreams active = some s) (hdec : DeserializeMap headers = .ok hs) :
    ProxySendLocalResponse h active statusCode detail body headers grpcStatus
      = .ok (.OK, h.store active
          { s with
            sentLocalResponse := some
              { StatusCode := statusCode, StatusCodeDetail := detail, Data := body,
                Headers := hs, GRPCStatus := grpcStatus } }) := by
  simp [ProxySendLocalResponse, hdec, hreg]

/-- C14 as stated fails: on a stream whose stored local response is the 403
response of the example filter, a second local-response call with status 500,
body `[2]` and an empty header map returns OK and the stored local response is
the second one. -/
theorem proxySendLocalResponse_overwrites :
    (singleStream (streamWithLocalResponse .Pause (some accessForbidden))).httpStreams 1
      = some (streamWithLocalResponse .Pause (some accessForbidden))
    ∧ statusOf (ProxySendLocalResponse
        (singleStream (streamWithLocalResponse .Pause (some accessForbidden))) 1
        500 [] [2] (SerializeMap []) 0) = some .OK
    ∧ recordAfter (ProxySendLocalResponse
        (singleStream (streamWithLocalResponse .Pause (some accessForbidden))) 1
        500 [] [2] (SerializeMap []) 0) 1
      = some (streamWithLocalResponse .Pause
          (some { StatusCode := 500, StatusCodeDetail := [], Data := [2], Headers := [],
                  GRPCStatus := 0 })) := by
  decide

/-- Witness for C14: a second local-response call on a stream that already
holds the 403 response of the example filter. -/
theorem proxySendLocalResponse_stores_latest_witness :
    ProxySendLocalResponse
        (singleStream (streamWithLocalResponse .Pause (some accessForbidden))) 1
        500 [] [2] (SerializeMap []) 0
      = .ok (.OK,
          (singleStream (streamWithLocalResponse .Pause (some accessForbidden))).store 1
            { streamWithLocalResponse .Pause (some accessForbidden) with
              sentLocalResponse := some
                { StatusCode := 500, StatusCodeDetail := [], Data := [2], Headers := [],
                  GRPCStatus := 0 } }) :=
  proxySendLocalResponse_stores_latest
    (singleStream (streamWithLocalResponse .Pause (some accessForbidden))) 1
    (streamWithLocalResponse .Pause (some accessForbidden)) 500 [] [2] (SerializeMap []) 0 []
    (by decide) (by decide)

/-- C15: on a registered stream, `CallOnRequestHeaders` with headers `hs` and
flag `eos` runs the request-header callback on a store in which the request
headers of the stream are already `hs`, passing it `(id, len(hs), eos)`; it
returns the action `a` the callback returned, and afterwards
`GetCurrentHttpStreamAction id` is `a`, whatever the callback did to the action
of the stream through host calls (which keep the record of `id` registered). -/
theorem callOnRequestHeaders_action {σ : Type} (ext : Extension σ)
    (tr : List CallbackEvent) (st st2 : σ) (h h2 : httpHostEmulator) (id : Nat)
    (cs s2 : httpStreamState) (hs : Headers) (eos : Bool) (a : Action)
    (hcs : h.httpStreams id = some cs)
    (hf : ext.ProxyOnRequestHeaders id (hs.length : Int) eos
        (st, h.store id { cs with requestHeaders := hs }) = .ok (a, (st2, h2)))
    (hreg : h2.httpStreams id = some s2) :
    (h.store id { cs with requestHeaders := hs }).httpStreams id
      = some { cs with requestHeaders := hs }
    ∧ CallOnRequestHeaders ext (st, h) id hs eos
      = .ok (a, (st2, h2.store id { s2 with action := a }))
    ∧ CallOnRequestHeaders (traced ext) ((tr, st), h) id hs eos
      = .ok (a, ((tr ++ [.requestHeaders id (hs.length : Int) eos], st2),
          h2.store id { s2 with action := a }))
    ∧ GetCurrentHttpStreamAction (h2.store id { s2 with action := a }) id = .ok a := by
  refine ⟨store_lookup_self h id _, ?_, ?_, ?_⟩
  · simp [CallOnRequestHeaders, hcs, hf, setAction_registered h2 id s2 a hreg]
  · simp [CallOnRequestHeaders, traced, recordThen, hcs, hf,
      setAction_registered h2 id s2 a hreg]
  · simp [GetCurrentHttpStreamAction, store_lookup_self]

/-- Witness for C15: a callback that calls `ProxyContinueStream` and then
returns Pause, on a paused stream: the call returns Pause and the current action
afterwards is Pause. -/
theorem callOnRequestHeaders_action_witness :
    CallOnRequestHeaders continueThenPause
        ((), singleStream (streamWithLocalResponse .Pause none)) 1 [([97], [98])] false
      = .ok (.Pause, ((),
          (((singleStream (streamWithLocalResponse .Pause none)).store 1
              { streamWithLocalResponse .Pause none with requestHeaders := [([97], [98])] }).store
              1 { streamWithLocalResponse .Continue none with
                  requestHeaders := [([97], [98])] }).store
            1 { ({ streamWithLocalResponse .Continue none with
                    requestHeaders := [([97], [98])] } : httpStreamState) with
                action := .Pause }))
    ∧ GetCurrentHttpStreamAction
        ((((singleStream (streamWithLocalResponse .Pause none)).store 1
              { streamWithLocalResponse .Pause none with requestHeaders := [([97], [98])] }).store
              1 { streamWithLocalResponse .Continue none with
                  requestHeaders := [([97], [98])] }).store
            1 { ({ streamWithLocalResponse .Continue none with
                    requestHeaders := [([97], [98])] } : httpStreamState) with
                action := .Pause }) 1
      = .ok .Pause :=
  ⟨(callOnRequestHeaders_action continueThenPause [] () ()
      (singleStream (streamWithLocalResponse .Pause none)) _ 1
      (streamWithLocalResponse .Pause none) _ [([97], [98])] false .Pause
      (by decide) rfl (by decide)).2.1,
    (callOnRequestHeaders_action continueThenPause [] () ()
      (singleStream (streamWithLocalResponse .Pause none)) _ 1
      (streamWithLocalResponse .Pause none) _ [([97], [98])] false .Pause
      (by decide) rfl (by decide)).2.2.2⟩

/-- C16 (the code at the failing input): on a stream with response body `[1]`,
delivering the chunk `[2]` as a response-body chunk, with an extension that
makes no host call, leaves the response body equal to `[2]`: the old buffer
`[1]` is dropped, not extended. On the same buffers the request side gives
`[1] ++ [2]`. -/
theorem callOnResponseBody_overwrites :
    (singleStream (streamWithBodies [1] [1])).httpStreams 1 = some (streamWithBodies [1] [1])
    ∧ deliveryRecord (CallOnResponseBody (idleExtension .Continue)
        ((), singleStream (streamWithBodies [1] [1])) 1 [2] false) 1
      = some (streamWithBodies [1] [2])
    ∧ deliveryRecord (CallOnRequestBody (idleExtension .Continue)
        ((), singleStream (streamWithBodies [1] [1])) 1 [2] false) 1
      = some (streamWithBodies [1, 2] [1]) := by
  decide

/-- C18 (as the code has it): on a registered stream and any of the four maps
`K`, each header-map mutation (add, replace, remove) returns OK; in the record
of the active stream only the slice of `K` is replaced, and the record of every
other stream id is as before; every slice that is separate from the slice of
`K` (empty, or a slice of another backing array) reads the same afterwards: the
other three maps and the local response headers of the active stream when they
are separate, both body buffers, the action, and every record of another stream
whose slices are separate, hold the values they held. When the slice of `K`
lies in its backing array, it holds afterwards what add, replace or remove makes
of the value of `K`. -/
theorem headerMutation_frame (op : HeaderMutation) (growth : Nat → Nat)
    (e : Slices.httpHostEmulator) (active : Nat) (s : Slices.httpStreamState) (mt : MapType)
    (hs : e.httpStreams active = some s) (hmt : mt.isStreamMap = true) :
    op.run growth e active mt
      = .ok (.OK, e.store (op.onSlice growth e.heap (s.mapSlice mt)).1 active
          (s.withMapSlice mt (op.onSlice growth e.heap (s.mapSlice mt)).2))
    ∧ (∀ mt2, mt2 ≠ mt →
        (s.withMapSlice mt (op.onSlice growth e.heap (s.mapSlice mt)).2).mapSlice mt2
          = s.mapSlice mt2)
    ∧ (s.withMapSlice mt (op.onSlice growth e.heap (s.mapSlice mt)).2).requestBody
        = s.requestBody
    ∧ (s.withMapSlice mt (op.onSlice growth e.heap (s.mapSlice mt)).2).responseBody
        = s.responseBody
    ∧ (s.withMapSlice mt (op.onSlice growth e.heap (s.mapSlice mt)).2).action = s.action
    ∧ (s.withMapSlice mt (op.onSlice growth e.heap (s.mapSlice mt)).2).sentLocalResponse
        = s.sentLocalResponse
    ∧ (∀ t : PairSlice, e.heap.separate (s.mapSlice mt) t →
        (op.onSlice growth e.heap (s.mapSlice mt)).1.read t = e.heap.read t)
    ∧ (∀ j, j ≠ active →
        (e.store (op.onSlice growth e.heap (s.mapSlice mt)).1 active
          (s.withMapSlice mt (op.onSlice growth e.heap (s.mapSlice mt)).2)).httpStreams j
          = e.httpStreams j)
    ∧ (∀ j r, j ≠ active → e.httpStreams j = some r → r.separateFrom e.heap (s.mapSlice mt) →
        r.view (op.onSlice growth e.heap (s.mapSlice mt)).1 = r.view e.heap)
    ∧ (e.heap.holds (s.mapSlice mt) →
        (op.onSlice growth e.heap (s.mapSlice mt)).1.read
            (op.onSlice growth e.heap (s.mapSlice mt)).2
          = op.onMap (e.heap.read (s.mapSlice mt))) := by
  have hrun := headerMutation_run_eq op growth e active s mt hs hmt
  have hsel : ∀ (k : PairSlice) (mt2 : MapType), mt2 ≠ mt →
      (s.withMapSlice mt k).mapSlice mt2 = s.mapSlice mt2 := by
    intro k mt2 hne
    cases mt <;> cases mt2 <;>
      simp_all [Slices.httpStreamState.mapSlice, Slices.httpStreamState.withMapSlice,
        MapType.isStreamMap]
  have hreq : ∀ k : PairSlice, (s.withMapSlice mt k).requestBody = s.requestBody := by
    intro k; cases mt <;> rfl
  have hresp : ∀ k : PairSlice, (s.withMapSlice mt k).responseBody = s.responseBody := by
    intro k; cases mt <;> rfl
  have hact : ∀ k : PairSlice, (s.withMapSlice mt k).action = s.action := by
    intro k; cases mt <;> rfl
  have hloc : ∀ k : PairSlice,
      (s.withMapSlice mt k).sentLocalResponse = s.sentLocalResponse := by
    intro k; cases mt <;> rfl
  refine ⟨hrun, hsel _, hreq _, hresp _, hact _, hloc _, ?_, ?_, ?_, ?_⟩
  · intro t hsep
    exact onSlice_read_separate op growth e.heap (s.mapSlice mt) t hsep
  · intro j hj
    simp [Slices.httpHostEmulator.store, hj]
  · intro j r _ _ hsep
    exact onSlice_view_separate op growth e.heap (s.mapSlice mt) r hsep
  · intro hh
    exact onSlice_read op growth e.heap (s.mapSlice mt) hh

/-- C18 as stated fails: in the state where one slice was stored as the request
headers and the response headers of stream 1 and as the request headers of
stream 2, replacing the value of key `"a"` by `"z"` in the request headers of
stream 1 returns OK and changes the response headers of stream 1 and the request
headers of stream 2 as well, from `[("a", "x"), ("b", "y")]` to
`[("a", "z"), ("b", "y")]`. -/
theorem headerMutation_shared_slice :
    Slices.viewAfter (.ok (.OK, sharedSlices)) 1
      = some { streamWithRequestHeaders [([97], [120]), ([98], [121])] with
          responseHeaders := [([97], [120]), ([98], [121])] }
    ∧ Slices.viewAfter (.ok (.OK, sharedSlices)) 2
      = some { streamWithRequestHeaders [([97], [120]), ([98], [121])] with
          responseHeaders := [([99], [119])] }
    ∧ statusOf ((HeaderMutation.replace [97] [122]).run (fun _ => 0) sharedSlices 1
        .HttpRequestHeaders) = some .OK
    ∧ Slices.viewAfter ((HeaderMutation.replace [97] [122]).run (fun _ => 0) sharedSlices 1
        .HttpRequestHeaders) 1
      = some { streamWithRequestHeaders [([97], [122]), ([98], [121])] with
          responseHeaders := [([97], [122]), ([98], [121])] }
    ∧ Slices.viewAfter ((HeaderMutation.replace [97] [122]).run (fun _ => 0) sharedSlices 1
        .HttpRequestHeaders) 2
      = some { streamWithRequestHeaders [([97], [122]), ([98], [121])] with
          responseHeaders := [([99], [119])] } := by
  decide

/-- Witness for C18: removing key `"a"` from the request headers of stream 1 in
a state where the request and the response headers have an array each: the call
returns OK, the request headers become `[("b", "y")]` and the response headers
stay `[("c", "w")]`. -/
theorem headerMutation_frame_witness :
    (HeaderMutation.remove [97]).run (fun _ => 0) separateSlices 1 .HttpRequestHeaders
      = .ok (.OK, separateSlices.store
          ((HeaderMutation.remove [97]).onSlice (fun _ => 0) separateSlices.heap
            ((Slices.streamWithHeaders ⟨0, 0, 2, 2⟩ ⟨1, 0, 1, 1⟩).mapSlice
              .HttpRequestHeaders)).1 1
          ((Slices.streamWithHeaders ⟨0, 0, 2, 2⟩ ⟨1, 0, 1, 1⟩).withMapSlice .HttpRequestHeaders
            ((HeaderMutation.remove [97]).onSlice (fun _ => 0) separateSlices.heap
              ((Slices.streamWithHeaders ⟨0, 0, 2, 2⟩ ⟨1, 0, 1, 1⟩).mapSlice
                .HttpRequestHeaders)).2))
    ∧ separateSlices.heap.separate ⟨0, 0, 2, 2⟩ ⟨1, 0, 1, 1⟩
    ∧ Slices.viewAfter ((HeaderMutation.remove [97]).run (fun _ => 0) separateSlices 1
        .HttpRequestHeaders) 1
      = some { streamWithRequestHeaders [([98], [121])] with
          responseHeaders := [([99], [119])] } :=
  ⟨(headerMutation_frame (.remove [97]) (fun _ => 0) separateSlices 1
      (Slices.streamWithHeaders ⟨0, 0, 2, 2⟩ ⟨1, 0, 1, 1⟩) .HttpRequestHeaders
      (by decide) (by decide)).1,
    Or.inr ⟨by decide, by decide⟩, by decide⟩

/-- C20 (the code at two failing inputs): on a stream with request body `[1]`,
get-bytes with `start = -1` faults on `&buf[start]`, an index outside the
buffer, instead of returning a failure status; and with `start = 0`,
`maxSize = -1` it returns OK with the range `(0, -1)`, whose size is negative. -/
theorem getBufferBytes_negative_arguments :
    (singleStream (streamWithBodies [1] [])).httpStreams 1 = some (streamWithBodies [1] [])
    ∧ httpHostEmulatorProxyGetBufferBytes (singleStream (streamWithBodies [1] [])) 1
        .HttpRequestBody (-1) 1 = .error .indexOutOfRange
    ∧ httpHostEmulatorProxyGetBufferBytes (singleStream (streamWithBodies [1] [])) 1
        .HttpRequestBody 0 (-1) = .ok (.OK, some ⟨0, -1⟩) := by
  decide

/-! ## Map codec and the pair calls -/

/-- C17 (on the modelled codec): for every ordered pair sequence `p` (the empty
sequence, empty keys or values and duplicate keys included) the codec gives `p`
back, `deserialize (serialize p) = p`, whatever way the count and length fields
are written that can be read back; consequently, on a registered stream and any
of the four maps, set-all-pairs with `SerializeMap p` returns OK and stores `p`,
and get-all-pairs then returns OK with `SerializeMap p` and its length. -/
theorem map_codec_roundtrip (p : Headers) (h : httpHostEmulator) (active : Nat)
    (s : httpStreamState) (mt : MapType)
    (hs : h.httpStreams active = some s) (hmt : mt.isStreamMap = true) :
    (∀ F : LengthField, deserializeWith F (serializeWith F p) = .ok p)
    ∧ DeserializeMap (SerializeMap p) = .ok p
    ∧ ProxySetHeaderMapPairs h active mt (SerializeMap p)
      = .ok (.OK, h.store active (s.withHeaderMap mt p))
    ∧ httpHostEmulatorProxyGetHeaderMapPairs (h.store active (s.withHeaderMap mt p)) active mt
      = .ok (.OK, some ⟨SerializeMap p, ((SerializeMap p).length : Int)⟩) := by
  have hrt := deserialize_serialize p
  have hpos := serializeMap_length_pos p
  refine ⟨fun F => deserializeWith_serializeWith F p, hrt, ?_, ?_⟩
  · cases mt with
    | other c => simp [MapType.isStreamMap] at hmt
    | _ => simp [ProxySetHeaderMapPairs, hrt, hs, httpStreamState.withHeaderMap]
  · cases mt with
    | other c => simp [MapType.isStreamMap] at hmt
    | _ =>
      simp [httpHostEmulatorProxyGetHeaderMapPairs, store_lookup_self,
        httpStreamState.withHeaderMap, returnSerialized, hpos]

/-- Witness for C17: a sequence with a duplicate key, an empty key and empty
values, set as the response trailers of stream 1 and read back. -/
theorem map_codec_roundtrip_witness :
    DeserializeMap (SerializeMap [([1, 2], [3]), ([], []), ([1, 2], [])])
      = .ok [([1, 2], [3]), ([], []), ([1, 2], [])]
    ∧ ProxySetHeaderMapPairs (singleStream (streamWithBodies [] [])) 1 .HttpResponseTrailers
        (SerializeMap [([1, 2], [3]), ([], []), ([1, 2], [])])
      = .ok (.OK, (singleStream (streamWithBodies [] [])).store 1
          ((streamWithBodies [] []).withHeaderMap .HttpResponseTrailers
            [([1, 2], [3]), ([], []), ([1, 2], [])]))
    ∧ httpHostEmulatorProxyGetHeaderMapPairs
        ((singleStream (streamWithBodies [] [])).store 1
          ((streamWithBodies [] []).withHeaderMap .HttpResponseTrailers
            [([1, 2], [3]), ([], []), ([1, 2], [])])) 1 .HttpResponseTrailers
      = .ok (.OK, some ⟨SerializeMap [([1, 2], [3]), ([], []), ([1, 2], [])],
          ((SerializeMap [([1, 2], [3]), ([], []), ([1, 2], [])]).length : Int)⟩) :=
  (map_codec_roundtrip [([1, 2], [3]), ([], []), ([1, 2], [])]
    (singleStream (streamWithBodies [] [])) 1 (streamWithBodies [] []) .HttpResponseTrailers
    (by decide) (by decide)).2

/-! ## Example filter -/

/-- C19 (as the code has it): with the callout response headers read
successfully, on a registered stream: if the last pair keyed `"x-filter-result"`
has value `"?"`, the callback stores the local response with status 403 and body
`"access forbidden"` and leaves the action as it was (no resume); if no pair is
keyed `"x-filter-result"`, the callback sets the action to Continue and leaves
the local response as it was. -/
theorem httpCallResponseCallback_decision (h : httpHostEmulator) (active : Nat)
    (s : httpStreamState) (resHeaders : Headers) (hreg : h.httpStreams active = some s) :
    ((∃ pre post,
        resHeaders = pre ++ (asciiBytes "x-filter-result", asciiBytes "?") :: post
        ∧ ∀ p ∈ post, p.1 ≠ asciiBytes "x-filter-result") →
      httpCallResponseCallback h active (some resHeaders)
        = .ok (h.store active { s with sentLocalResponse := some accessForbidden })
      ∧ accessForbidden.StatusCode = 403
      ∧ accessForbidden.Data = asciiBytes "access forbidden")
    ∧ ((∀ p ∈ resHeaders, p.1 ≠ asciiBytes "x-filter-result") →
      httpCallResponseCallback h active (some resHeaders)
        = .ok (h.store active { s with action := .Continue })) := by
  constructor
  · rintro ⟨pre, post, rfl, hpost⟩
    have hdec : DeserializeMap
        (SerializeMap [(asciiBytes "powered-by", asciiBytes "proxy-wasm-go-sdk!!")])
        = .ok [(asciiBytes "powered-by", asciiBytes "proxy-wasm-go-sdk!!")] := by
      decide
    refine ⟨?_, rfl, rfl⟩
    unfold httpCallResponseCallback
    simp only [resMapOf_last _ _ pre post hpost, ne_eq, not_true_eq_false, if_false]
    simp [SendHttpResponse, ProxySendLocalResponse, hdec, hreg, accessForbidden]
  · intro habs
    unfold httpCallResponseCallback
    simp only [resMapOf_absent _ _ habs]
    simp [resumeAndReturn, ResumeHttpRequest, ProxyContinueStream, hreg]

/-- C19 as stated fails: the headers
`[("x-filter-result", "?"), ("x-filter-result", "no")]` contain the pair
`("x-filter-result", "?")`, but the map built from them keeps the later value
`"no"`: on a paused stream the callback resumes the request (action Continue) and
stores no local response. -/
theorem httpCallResponseCallback_later_pair_wins :
    (singleStream (streamWithLocalResponse .Pause none)).httpStreams 1
      = some (streamWithLocalResponse .Pause none)
    ∧ callbackRecord (httpCallResponseCallback
        (singleStream (streamWithLocalResponse .Pause none)) 1
        (some [(asciiBytes "x-filter-result", asciiBytes "?"),
          (asciiBytes "x-filter-result", asciiBytes "no")])) 1
      = some (streamWithLocalResponse .Continue none) := by
  decide

/-- Witness for C19: the headers `[("x-filter-result", "?")]` on a paused stream. -/
theorem httpCallResponseCallback_decision_witness :
    httpCallResponseCallback (singleStream (streamWithLocalResponse .Pause none)) 1
        (some [(asciiBytes "x-filter-result", asciiBytes "?")])
      = .ok ((singleStream (streamWithLocalResponse .Pause none)).store 1
          { streamWithLocalResponse .Pause none with
            sentLocalResponse := some accessForbidden }) :=
  ((httpCallResponseCallback_decision (singleStream (streamWithLocalResponse .Pause none)) 1
    (streamWithLocalResponse .Pause none)
    [(asciiBytes "x-filter-result", asciiBytes "?")] (by decide)).1
    ⟨[], [], rfl, fun _ hp => nomatch hp⟩).1

end ProxyTest
